import Mathlib

/-!
# Verification of the aleth peer-discovery NodeTable

A shallow embedding of `src/libp2p/NodeTable.cpp` (the Kademlia-style node
routing table with its signed UDP discovery protocol) together with proofs
about the embedded operations.

Modelling conventions:
* 256-bit node identifiers are `Nat` values below `2 ^ 256`; the code hashes
  512-bit public keys down to 256-bit identifiers, and we work directly with
  the identifiers (the spec glossary defines distance on identifiers).
* The `shared_ptr`/`weak_ptr` ownership structure is modelled with allocation
  tags: `m_allNodes` is the sole strong owner, so an object is alive exactly
  while its tag occurs in `allNodes`; buckets store bare tags, and a tag that
  no longer occurs in `allNodes` is an expired weak reference.
* Network sends, queued events and timer (re)scheduling are modelled as an
  explicit output trace (`Out`).
* Cryptographic primitives (Keccak-256 and signature recovery), the RLP body
  parser, and the endpoint policy predicates are parameters of the model.
* Constants and small helpers living in headers that are not part of `src/`
  (`NodeTable.h`, `libdevcore`) are modelled from the spec; each such
  definition carries a doc comment saying so.
-/

namespace Aleth

/-! ## Definitions: fixtures and specification predicates follow the
operational model above; all theorems come after. -/

/-- 256-bit routing identifier of a node (the spec: `Keccak256(NodeId)`
interpreted as a 256-bit integer). -/
abbrev NodeID := Nat

/-- Allocation tag standing for the identity of one heap-allocated
`NodeEntry` object (`shared_ptr` target). -/
abbrev Tag := Nat

/-- Modelled from the spec (the endpoint type lives outside `src/`):
`{ ip, udp_port, tcp_port }`. -/
structure Endpoint where
  address : Nat
  udpPort : Nat
  tcpPort : Nat
deriving DecidableEq

/-- Modelled from the spec (the endpoint type lives outside `src/`): the
endpoint operator-bool, false for a node "lacking endpoint" (unspecified
address). -/
def Endpoint.isSpecified (e : Endpoint) : Bool := e.address ≠ 0

/-- Modelled from the spec (`NodeTable.h` is absent from `src/`): bucket
capacity `K = 16`. -/
def s_bucketSize : Nat := 16

/-- Modelled from the spec (`NodeTable.h` is absent from `src/`): lookup
parallelism `alpha = 3`. -/
def s_alpha : Nat := 3

/-- Modelled from the spec (`NodeTable.h` is absent from `src/`): maximum
discovery rounds `S = 8`. -/
def s_maxSteps : Nat := 8

/-- Modelled from the spec (`NodeTable.h` is absent from `src/`): number of
buckets, 256. -/
def s_bins : Nat := 256

/-- Modelled from the spec (`NodeTable.h` is absent from `src/`):
`req_timeout = 300` milliseconds. -/
def c_reqTimeout : Nat := 300

/-- Fuel-driven base-2 logarithm, totalling `Nat.log2` by structural
recursion so that concrete instances evaluate inside the kernel. -/
def log2floorAux : Nat → Nat → Nat
  | 0, _ => 0
  | fuel + 1, n => if n < 2 then 0 else log2floorAux fuel (n / 2) + 1

/-- Base-2 logarithm (index of the highest set bit), executable form. -/
def log2floor (n : Nat) : Nat := log2floorAux n n

/-- Modelled from the spec (`NodeTable.h` is absent from `src/`):
`NodeTable::distance(a, b)` is the zero-based index of the highest set bit of
the XOR of the two 256-bit identifiers, plus one (equivalently 256 minus the
common MSB prefix length); two identical identifiers give 0. -/
def distance (a b : NodeID) : Nat := if a = b then 0 else log2floor (a ^^^ b) + 1

/-- `NodeEntry` (NodeTable.cpp line 43 together with the header fields):
a node plus its distance to the local node, computed at construction, and
the `pending` flag (true until a round trip completes). -/
structure NodeEntry where
  id : NodeID
  endpoint : Endpoint
  distance : Nat
  pending : Bool
deriving DecidableEq

/-- One record of the `m_allNodes` map: a key, the allocation tag of the
owned `NodeEntry` object, and the current field values of that object. -/
structure ANode where
  id : NodeID
  tag : Tag
  entry : NodeEntry
deriving DecidableEq

/-- `EvictionTimeout` (header): replacement node id plus the time at which
the eviction probe was started. -/
structure EvictionTimeout where
  newNodeID : NodeID
  evictedTimePoint : Nat
deriving DecidableEq

/-- The mutable state of a `NodeTable`: the `m_allNodes` owner map, the 256
buckets of weak references (tags), the eviction probes, the pending
`FindNode` timeouts, the (mutable) host endpoint and the next fresh
allocation tag. -/
structure NodeTableState where
  allNodes : List ANode
  buckets : List (List Tag)
  evictions : List (NodeID × EvictionTimeout)
  findNodeTimeout : List (NodeID × Nat)
  hostEndpoint : Endpoint
  nextTag : Tag
deriving DecidableEq

/-- Environment of a node table: the local identifier, the endpoint policy
predicates (`isAllowed` on an address, `isPublicAddress`), whether the UDP
socket is open and whether an event handler is registered. -/
structure Params where
  localId : NodeID
  allowed : Nat → Bool
  isPublic : Nat → Bool
  socketOpen : Bool
  hasHandler : Bool

/-- Observable actions of the table: datagrams sent, events queued for the
host, entries appended to `m_findNodeTimeout` and timers scheduled. -/
inductive Out where
  | sentPing (toId : NodeID) (toEp : Endpoint)
  | sentPong (dest : Endpoint)
  | sentFindNode (toId : NodeID) (target : NodeID)
  | sentNeighbours (count : Nat)
  | evAdded (id : NodeID)
  | evDropped (id : NodeID)
  | registeredFindNode (id : NodeID) (time : Nat)
  | scheduledEvictionCheck
  | scheduledDiscoverRound (round : Nat)
  | scheduledRandomDiscovery
deriving DecidableEq

/-- Bucket access: `m_buckets[i].nodes` (an out-of-range index yields the
empty list; in-bounds accesses are what claim C10 is about). -/
def bget : List (List Tag) → Nat → List Tag
  | [], _ => []
  | b :: _, 0 => b
  | _ :: bs, i + 1 => bget bs i

/-- Bucket update: replace `m_buckets[i].nodes` (no-op out of range). -/
def bset : List (List Tag) → Nat → List Tag → List (List Tag)
  | [], _, _ => []
  | _ :: bs, 0, v => v :: bs
  | b :: bs, i + 1, v => b :: bset bs i v

/-- `m_allNodes.find(id)` returning the matching record, if any. -/
def lookupId (s : NodeTableState) (i : NodeID) : Option ANode :=
  s.allNodes.find? (fun an => an.id = i)

/-- Dereference a weak reference: `weak_ptr::lock()` succeeds exactly when
the tag still has a strong owner in `m_allNodes`. -/
def lookupTag (s : NodeTableState) (t : Tag) : Option ANode :=
  s.allNodes.find? (fun an => an.tag = t)

/-- `m_allNodes[id] = entry`: map assignment, replacing the record of an
existing key (the replaced object thereby loses its strong owner). -/
def mapInsert : List ANode → ANode → List ANode
  | [], an => [an]
  | b :: r, an => if b.id = an.id then an :: r else b :: mapInsert r an

/-- `m_allNodes.erase(id)`: remove the record of the key, if present. -/
def mapEraseId : List ANode → NodeID → List ANode
  | [], _ => []
  | b :: r, i => if b.id = i then r else b :: mapEraseId r i

/-- Field mutation through a `shared_ptr`: rewrite the entry owned by the
given tag. -/
def updateTag (l : List ANode) (t : Tag) (f : NodeEntry → NodeEntry) : List ANode :=
  l.map (fun an => if an.tag = t then { an with entry := f an.entry } else an)

/-- `m_evictions.erase(iterator)`: remove the first record with the key. -/
def eraseEvKey : List (NodeID × EvictionTimeout) → NodeID → List (NodeID × EvictionTimeout)
  | [], _ => []
  | e :: r, k => if e.1 = k then r else e :: eraseEvKey r k

/-- Event delivery: `appendEvent` runs only when a handler is set. -/
def appendEvent (p : Params) (o : Out) : List Out :=
  if p.hasHandler then [o] else []

/-- `NodeTable::evict` (lines 283-299): abort if the socket is closed,
record an eviction probe (`emplace` inserts only when the incumbent key is
absent), start the eviction sweep when the map was previously empty, and
ping the incumbent. -/
def evictOp (p : Params) (now : Nat) (leastSeen : NodeEntry) (newId : NodeID)
    (s : NodeTableState) : NodeTableState × List Out :=
  if p.socketOpen = false then (s, [])
  else
    let ev2 := if (s.evictions.find? (fun e => e.1 = leastSeen.id)).isSome
               then s.evictions
               else s.evictions ++ [(leastSeen.id, ⟨newId, now⟩)]
    ({ s with evictions := ev2 },
     (if ev2.length = 1 then [Out.scheduledEvictionCheck] else []) ++
       [Out.sentPing leastSeen.id leastSeen.endpoint])

/-- The observed-endpoint rewrite of `noteActiveNode` lines 312-313:
overwrite address and UDP port with the values the datagram arrived from. -/
def endpointUpd (addr port : Nat) : NodeEntry → NodeEntry := fun e =>
  { e with endpoint := { e.endpoint with address := addr, udpPort := port } }

/-- `NodeTable::noteActiveNode` (lines 301-360): reject the local id and
disallowed endpoints; ignore unknown or pending nodes; update the observed
endpoint; then either splice the entry to the bucket tail, append it when
the bucket has room, replace an expired front, or start an eviction probe
against a live front. -/
def noteActiveNode (p : Params) (now : Nat) (pubk : NodeID) (addr port : Nat)
    (s : NodeTableState) : NodeTableState × List Out :=
  if pubk = p.localId ∨ p.allowed addr = false then (s, [])
  else
    match lookupId s pubk with
    | none => (s, [])
    | some an =>
      if an.entry.pending then (s, [])
      else
        let s1 := { s with allNodes := updateTag s.allNodes an.tag (endpointUpd addr port) }
        let bi := an.entry.distance - 1
        let nodes := bget s1.buckets bi
        if an.tag ∈ nodes then
          ({ s1 with buckets := bset s1.buckets bi (nodes.erase an.tag ++ [an.tag]) }, [])
        else if nodes.length < s_bucketSize then
          ({ s1 with buckets := bset s1.buckets bi (nodes ++ [an.tag]) },
           appendEvent p (.evAdded an.entry.id))
        else
          match nodes with
          | [] => (s1, [])
          | front :: rest =>
            match lookupTag s1 front with
            | none =>
              ({ s1 with buckets := bset s1.buckets bi (rest ++ [an.tag]) },
               appendEvent p (.evAdded an.entry.id))
            | some fan => evictOp p now fan.entry an.entry.id s1

/-- `NodeTable::dropNode` (lines 362-378): remove every bucket reference to
the object, erase its id from `m_allNodes`, and queue a dropped event. -/
def dropNode (p : Params) (n : ANode) (s : NodeTableState) : NodeTableState × List Out :=
  let bi := n.entry.distance - 1
  let filtered := (bget s.buckets bi).filter (fun t => t ≠ n.tag)
  let s1 := { s with buckets := bset s.buckets bi filtered }
  let s2 := { s1 with allNodes := mapEraseId s1.allNodes n.entry.id }
  (s2, appendEvent p (.evDropped n.entry.id))

/-- `NodeRelation` of `addNode` (header; values per the spec). -/
inductive NodeRelation where
  | Unknown
  | Known
deriving DecidableEq

/-- `NodeTable::addNode` (lines 84-108): the `Known` path inserts a
non-pending entry and notes it active at once; the `Unknown` path rejects
nodes lacking endpoint or id, ignores already-known ids, and otherwise
inserts a pending entry and pings it. -/
def addNode (p : Params) (now : Nat) (nid : NodeID) (ep : Endpoint)
    (rel : NodeRelation) (s : NodeTableState) : NodeTableState × List Out :=
  match rel with
  | .Known =>
    let e : NodeEntry := ⟨nid, ep, distance p.localId nid, false⟩
    let s1 := { s with allNodes := mapInsert s.allNodes ⟨nid, s.nextTag, e⟩,
                       nextTag := s.nextTag + 1 }
    noteActiveNode p now nid ep.address ep.udpPort s1
  | .Unknown =>
    if ep.isSpecified = false ∨ nid = 0 then (s, [])
    else if (lookupId s nid).isSome then (s, [])
    else
      let e : NodeEntry := ⟨nid, ep, distance p.localId nid, true⟩
      ({ s with allNodes := mapInsert s.allNodes ⟨nid, s.nextTag, e⟩,
                nextTag := s.nextTag + 1 },
       [Out.sentPing nid ep])

/-- Clear the pending flag of the object owned by a tag
(`n->pending = false`). -/
def setPendingFalse (s : NodeTableState) (t : Tag) : NodeTableState :=
  { s with allNodes := updateTag s.allNodes t (fun e => { e with pending := false }) }

/-- The `Pong` case of `NodeTable::onPacketReceived` (lines 402-448): resolve
an unexpired eviction probe keyed by the sender (drop the replacement, clear
the incumbent pending flag, erase the probe), otherwise clear the sender
pending flag; finally learn the externally observed host endpoint. -/
def pongHandler (p : Params) (now : Nat) (sourceid : NodeID) (dest : Endpoint)
    (s : NodeTableState) : NodeTableState × List Out :=
  let fresh : Option (NodeID × EvictionTimeout) :=
    match s.evictions.find? (fun e => e.1 = sourceid) with
    | some e => if e.2.evictedTimePoint + c_reqTimeout ≥ now then some e else none
    | none => none
  let step : NodeTableState × List Out :=
    match fresh with
    | some e =>
      let sA := { s with evictions := eraseEvKey s.evictions sourceid }
      let (sB, o1) :=
        match lookupId sA e.2.newNodeID with
        | some n => dropNode p n sA
        | none => (sA, [])
      let sC :=
        match lookupId sB e.1 with
        | some n => setPendingFalse sB n.tag
        | none => sB
      (sC, o1)
    | none =>
      (match lookupId s sourceid with
       | some n => setPendingFalse s n.tag
       | none => s, [])
  let s2 := step.1
  let he := s2.hostEndpoint
  let he2 := if (he.isSpecified = false ∨ p.allowed he.address = false) ∧
                p.isPublic dest.address = true
             then { he with address := dest.address } else he
  ({ s2 with hostEndpoint := { he2 with udpPort := dest.udpPort } }, step.2)

/-- The `Neighbours` case of `NodeTable::onPacketReceived` (lines 450-474):
scan `m_findNodeTimeout`, marking the packet expected when an entry for the
sender is younger than `req_timeout` and removing older entries for the
sender; drop an unexpected packet, otherwise add every listed neighbour. -/
def neighboursHandler (p : Params) (now : Nat) (sourceid : NodeID)
    (ns : List (NodeID × Endpoint)) (s : NodeTableState) : NodeTableState × List Out :=
  let expected := s.findNodeTimeout.any
    (fun t => decide (t.1 = sourceid ∧ now - t.2 < c_reqTimeout))
  let kept := s.findNodeTimeout.filter
    (fun t => decide (¬ (t.1 = sourceid ∧ ¬ now - t.2 < c_reqTimeout)))
  let s1 := { s with findNodeTimeout := kept }
  if expected = false then (s1, [])
  else
    ns.foldl (fun acc n =>
      let r := addNode p now n.1 n.2 .Unknown acc.1
      (r.1, acc.2 ++ r.2)) (s1, [])

/-- One bucket pass of `nearestNodeEntries`: lock each weak reference and
record the live entries keyed by their distance to the target. -/
def collectBucket (s : NodeTableState) (target : NodeID) (i : Nat)
    (acc : List (Nat × ANode)) : List (Nat × ANode) :=
  acc ++ (bget s.buckets i).filterMap (fun t =>
    (lookupTag s t).map (fun an => (distance target an.entry.id, an)))

/-- The spreading walk of `nearestNodeEntries` (lines 229-245): while
`head != tail` and `head < 256`, collect bucket `head` and, when `tail` is
nonzero, bucket `tail`, then move both cursors. The fuel bounds the at most
256 iterations (`head` strictly increases below 256). -/
def walkBoth (s : NodeTableState) (target : NodeID) :
    Nat → Nat → Nat → List (Nat × ANode) → List (Nat × ANode)
  | 0, _, _, acc => acc
  | fuel + 1, head, tail, acc =>
    if head ≠ tail ∧ head < s_bins then
      let acc1 := collectBucket s target head acc
      let acc2 := if tail ≠ 0 then collectBucket s target tail acc1 else acc1
      walkBoth s target fuel (head + 1) (if tail ≠ 0 then tail - 1 else tail) acc2
    else acc

/-- The forward walk of `nearestNodeEntries` (lines 246-254), used when
`head < 2`: collect every bucket from `head` upward. -/
def walkUp (s : NodeTableState) (target : NodeID) :
    Nat → Nat → List (Nat × ANode) → List (Nat × ANode)
  | 0, _, acc => acc
  | fuel + 1, head, acc =>
    if head < s_bins then
      walkUp s target fuel (head + 1) (collectBucket s target head acc)
    else acc

/-- The backward walk of `nearestNodeEntries` (lines 255-263): collect
buckets `tail`, `tail - 1`, ..., 1. -/
def walkDown (s : NodeTableState) (target : NodeID) :
    Nat → List (Nat × ANode) → List (Nat × ANode)
  | 0, acc => acc
  | t + 1, acc => walkDown s target t (collectBucket s target (t + 1) acc)

/-- Insertion into the ordered `found` map of `nearestNodeEntries`
(`std::map<unsigned, list<...>>` with `push_back`). -/
def foundInsert : List (Nat × List ANode) → Nat → ANode → List (Nat × List ANode)
  | [], k, v => [(k, [v])]
  | (k2, l) :: rest, k, v =>
    if k = k2 then (k2, l ++ [v]) :: rest
    else if k < k2 then (k, [v]) :: (k2, l) :: rest
    else (k2, l) :: foundInsert rest k v

/-- Build the `found` map from the collected pairs, in collection order. -/
def buildFound (ps : List (Nat × ANode)) : List (Nat × List ANode) :=
  ps.foldl (fun m q => foundInsert m q.1 q.2) []

/-- Iterate the `found` map in ascending key order. -/
def flattenFound (m : List (Nat × List ANode)) : List ANode :=
  m.foldr (fun kv acc => kv.2 ++ acc) []

/-- `NodeTable::nearestNodeEntries` (lines 219-271): walk the buckets
outward from the bucket of the target, order the live entries by distance to
the target, and keep the first `K` whose endpoint is set and allowed. -/
def nearestNodeEntries (p : Params) (s : NodeTableState) (target : NodeID) : List ANode :=
  let lastBin := s_bins - 1
  let head := distance p.localId target
  let tail := if head = 0 then lastBin else (head - 1) % s_bins
  let pairs :=
    if head > 1 ∧ tail ≠ lastBin then walkBoth s target s_bins head tail []
    else if head < 2 then walkUp s target s_bins head []
    else walkDown s target tail []
  (flattenFound (buildFound pairs)).foldl (fun ret an =>
    if ret.length < s_bucketSize ∧ an.entry.endpoint.isSpecified = true ∧
       p.allowed an.entry.endpoint.address = true
    then ret ++ [an] else ret) []

/-- Modelled from the spec (`maxDatagramSize` lives outside `src/`): the
`Neighbours` batch limit `(1280 - 109) / 90 = 13` of line 480. -/
def nlimit : Nat := (1280 - 109) / 90

/-- The batching loop of the `FindNode` case (lines 481-489): one
`Neighbours` datagram per `nlimit`-sized slice of the nearest entries. -/
def batches (size : Nat) (offset : Nat) : List Out :=
  if offset < size then
    Out.sentNeighbours (min nlimit (size - offset)) :: batches size (offset + nlimit)
  else []
termination_by size - offset
decreasing_by
  simp [nlimit] at *
  omega

/-- The `FindNode` case of `NodeTable::onPacketReceived` (lines 476-491):
reply with batched `Neighbours`, leaving the state untouched. -/
def findNodeHandler (p : Params) (target : NodeID) (s : NodeTableState) :
    NodeTableState × List Out :=
  (s, batches (nearestNodeEntries p s target).length 0)

/-- The `PingNode` case of `NodeTable::onPacketReceived` (lines 493-506):
overwrite the claimed source endpoint with the observed one, add the sender
as an unknown node, and reply with a `Pong` echoing the ping hash. -/
def pingHandler (p : Params) (now : Nat) (fromAddr fromPort : Nat)
    (sourceid : NodeID) (source : Endpoint) (s : NodeTableState) :
    NodeTableState × List Out :=
  let src := { source with address := fromAddr, udpPort := fromPort }
  let r := addNode p now sourceid src .Unknown s
  (r.1, r.2 ++ [Out.sentPong src])

/-- Decoded packet bodies (spec section 4.2); each body carries the expiry
timestamp read by `isExpired`. -/
inductive PacketBody where
  | ping (version : Nat) (source destination : Endpoint) (ts : Nat)
  | pong (destination : Endpoint) (echo : List Nat) (ts : Nat)
  | findNode (target : NodeID) (ts : Nat)
  | neighbours (ns : List (NodeID × Endpoint)) (ts : Nat)
deriving DecidableEq

/-- The expiry timestamp of a packet body. -/
def PacketBody.ts : PacketBody → Nat
  | .ping _ _ _ t => t
  | .pong _ _ t => t
  | .findNode _ t => t
  | .neighbours _ t => t

/-- A successfully decoded `DiscoveryDatagram`: type byte, recovered signer,
echoed hash and parsed body. -/
structure DecodedPacket where
  ptype : Nat
  sourceid : NodeID
  echo : List Nat
  body : PacketBody
deriving DecidableEq

/-- Modelled from the spec (the `DiscoveryDatagram` base lives in the
header): a packet is expired when its timestamp lies in the past. -/
def DecodedPacket.isExpired (now : Nat) (pk : DecodedPacket) : Bool :=
  pk.body.ts < now

/-- `DiscoveryDatagram::interpretUDP` (lines 596-646). `keccak` and
`recover` stand for the external Keccak-256 and signature-recovery
primitives, `rlp` for the type-specific `interpretRLP` body parser (whose
failure is a thrown exception, modelled as `Except.error`). Returning
`Except.ok none` models the four logged early returns: too small, bad hash,
bad signature, unknown packet type. The packet type constants 0x01-0x04 are
modelled from the spec (the packet classes live in the header). -/
def interpretUDP (keccak : List Nat → List Nat) (recover : List Nat → List Nat → NodeID)
    (rlp : Nat → List Nat → Except Unit PacketBody) (packet : List Nat) :
    Except Unit (Option DecodedPacket) :=
  if packet.length < 32 + 65 + 1 + 3 then .ok none
  else
    let hashedBytes := packet.drop 32
    let signedBytes := hashedBytes.drop 65
    let signatureBytes := hashedBytes.take 65
    let bodyBytes := packet.drop 98
    let echo := keccak hashedBytes
    if packet.take 32 ≠ echo then .ok none
    else
      let sourceid := recover signatureBytes (keccak signedBytes)
      if sourceid = 0 then .ok none
      else
        let t := signedBytes.headD 0
        if t = 1 ∨ t = 2 ∨ t = 3 ∨ t = 4 then
          match rlp t bodyBytes with
          | .ok body => .ok (some ⟨t, sourceid, echo, body⟩)
          | .error e => .error e
        else .ok none

/-- The `switch` of `NodeTable::onPacketReceived` (lines 400-507). `none`
models the `dynamic_cast` throwing on a type/body mismatch (caught by the
surrounding handler, skipping the trailing `noteActiveNode`); a type byte
with no case falls through the switch. -/
def dispatch (p : Params) (now : Nat) (fromAddr fromPort : Nat)
    (pk : DecodedPacket) (s : NodeTableState) : Option (NodeTableState × List Out) :=
  match pk.ptype, pk.body with
  | 1, .ping _ source _ _ => some (pingHandler p now fromAddr fromPort pk.sourceid source s)
  | 2, .pong dest _ _ => some (pongHandler p now pk.sourceid dest s)
  | 3, .findNode target _ => some (findNodeHandler p target s)
  | 4, .neighbours ns _ => some (neighboursHandler p now pk.sourceid ns s)
  | 1, _ => none
  | 2, _ => none
  | 3, _ => none
  | 4, _ => none
  | _, _ => some (s, [])

/-- `NodeTable::onPacketReceived` (lines 385-521): decode, drop undecodable
and expired packets, dispatch to the per-type case, then note the sender
active. -/
def onPacketReceived (p : Params) (now : Nat) (keccak : List Nat → List Nat)
    (recover : List Nat → List Nat → NodeID)
    (rlp : Nat → List Nat → Except Unit PacketBody)
    (fromAddr fromPort : Nat) (bytes : List Nat) (s : NodeTableState) :
    NodeTableState × List Out :=
  match interpretUDP keccak recover rlp bytes with
  | .error _ => (s, [])
  | .ok none => (s, [])
  | .ok (some pk) =>
    if pk.isExpired now then (s, [])
    else
      match dispatch p now fromAddr fromPort pk s with
      | none => (s, [])
      | some r =>
        let r2 := noteActiveNode p now pk.sourceid fromAddr fromPort r.1
        (r2.1, r.2 ++ r2.2)

/-- The candidate-selection loop of `doDiscover` (lines 172-183): walk the
nearest entries in order, skipping entries already tried, until `alpha`
entries are picked. -/
def selectUntried : List ANode → List Tag → Nat → List ANode
  | [], _, _ => []
  | a :: rest, tried, k =>
    if k = 0 then []
    else if a.tag ∈ tried then selectUntried rest tried k
    else a :: selectUntried rest tried (k - 1)

/-- `NodeTable::doDiscover` (lines 153-217): abort when the socket is
closed; at round `S` schedule the next random discovery; otherwise register
and send a `FindNode` to up to `alpha` untried nearest entries, and either
schedule the next round (adding the queried entries to the tried set) or,
when nothing was selected, schedule the next random discovery. The result
is the state, the action trace, and the updated tried set. -/
def doDiscover (p : Params) (now target round : Nat) (tried : List Tag)
    (s : NodeTableState) : NodeTableState × List Out × List Tag :=
  if p.socketOpen = false then (s, [], tried)
  else if round = s_maxSteps then (s, [Out.scheduledRandomDiscovery], tried)
  else
    let nearest := nearestNodeEntries p s target
    let sel := selectUntried nearest tried s_alpha
    let s1 := { s with findNodeTimeout :=
      s.findNodeTimeout ++ sel.map (fun an => (an.entry.id, now)) }
    let outs := sel.foldr (fun an acc =>
      Out.registeredFindNode an.entry.id now :: Out.sentFindNode an.entry.id target :: acc) []
    if sel.isEmpty then (s1, outs ++ [Out.scheduledRandomDiscovery], tried)
    else (s1, outs ++ [Out.scheduledDiscoverRound (round + 1)],
          tried ++ sel.map (fun an => an.tag))

/-- One probe of the collection phase of the eviction sweep (lines
542-556): for a probe older than `req_timeout` whose incumbent is still in
`m_allNodes`, remember the incumbent record, and the replacement id and
endpoint when the replacement is still in `m_allNodes`. -/
def sweepStep (now : Nat) (s : NodeTableState)
    (acc : List ANode × List (NodeID × Endpoint)) (e : NodeID × EvictionTimeout) :
    List ANode × List (NodeID × Endpoint) :=
  if now - e.2.evictedTimePoint > c_reqTimeout then
    match lookupId s e.1 with
    | some an =>
      (acc.1 ++ [an],
       match lookupId s e.2.newNodeID with
       | some an2 => acc.2 ++ [(an2.entry.id, an2.entry.endpoint)]
       | none => acc.2)
    | none => acc
  else acc

/-- The collection phase of the eviction sweep (lines 542-556). -/
def sweepCollect (now : Nat) (ev : List (NodeID × EvictionTimeout))
    (s : NodeTableState) : List ANode × List (NodeID × Endpoint) :=
  ev.foldl (sweepStep now s) ([], [])

/-- `std::list::unique` on the drop list (line 558): remove adjacent
duplicates (same `shared_ptr`, i.e. same tag). -/
def dedupAdjacent : List ANode → List ANode
  | [] => []
  | [a] => [a]
  | a :: b :: r =>
    if a.tag = b.tag then dedupAdjacent (b :: r) else a :: dedupAdjacent (b :: r)

/-- The drop loop of the sweep (lines 563-564), as a fold accumulating the
state and the action trace. -/
def dropFold (p : Params) (L : List ANode) (st : NodeTableState × List Out) :
    NodeTableState × List Out :=
  L.foldl (fun acc n =>
    let r := dropNode p n acc.1
    (r.1, acc.2 ++ r.2)) st

/-- The promotion loop of the sweep (lines 567-568): `noteActiveNode` on
each collected replacement id and endpoint. -/
def noteFold (p : Params) (now : Nat) (L : List (NodeID × Endpoint))
    (st : NodeTableState × List Out) : NodeTableState × List Out :=
  L.foldl (fun acc n =>
    let r := noteActiveNode p now n.1 n.2.address n.2.udpPort acc.1
    (r.1, acc.2 ++ r.2)) st

/-- The body of the `doCheckEvictions` timer (lines 523-573): collect the
expired probes, erase their keys from `m_evictions`, drop the dead
incumbents, promote the collected replacements with `noteActiveNode`, and
reschedule the sweep while any probe remains. -/
def doCheckEvictionsTick (p : Params) (now : Nat) (s : NodeTableState) :
    NodeTableState × List Out :=
  let col := sweepCollect now s.evictions s
  let dropU := dedupAdjacent col.1
  let evKept := s.evictions.filter (fun e => dropU.all (fun n => n.entry.id ≠ e.1))
  let s1 := { s with evictions := evKept }
  let r1 := dropFold p dropU (s1, [])
  let r2 := noteFold p now col.2 r1
  (r2.1, r2.2 ++ (if r2.1.evictions.isEmpty then [] else [Out.scheduledEvictionCheck]))

/-- A routable concrete endpoint. -/
def epW : Endpoint := ⟨1, 30303, 30303⟩

/-- Concrete parameters: local identifier 5, everything allowed and public,
socket open, event handler registered. -/
def pW : Params := ⟨5, fun _ => true, fun _ => true, true, true⟩

/-- The freshly constructed table: no nodes, 256 empty buckets. -/
def emptyState : NodeTableState :=
  ⟨[], List.replicate 256 [], [], [], ⟨0, 0, 0⟩, 0⟩

/-- A table with one fresh `findNodeTimeout` entry for node 7, registered at
time 0. -/
def sFresh : NodeTableState :=
  ⟨[], List.replicate 256 [], [], [(7, 0)], ⟨0, 0, 0⟩, 0⟩

/-- A table whose only `findNodeTimeout` entry for node 7 is stale at time
400. -/
def sStale : NodeTableState :=
  ⟨[], List.replicate 256 [], [], [(7, 0)], ⟨0, 0, 0⟩, 0⟩

/-- Concrete Keccak stand-in for witnesses: a constant 32-byte digest. -/
def kW : List Nat → List Nat := fun _ => List.replicate 32 0

/-- Concrete recovery stand-in for witnesses: always recovers signer 7. -/
def rW : List Nat → List Nat → NodeID := fun _ _ => 7

/-- Concrete body parser stand-in for witnesses: every body parses to a
`Ping` with expiry timestamp 0. -/
def rlpW : Nat → List Nat → Except Unit PacketBody :=
  fun _ _ => Except.ok (PacketBody.ping 4 ⟨9, 1, 1⟩ ⟨8, 2, 2⟩ 0)

/-- A well-formed 101-byte datagram under the witness primitives: correct
hash, nonzero signer, type byte 0x01. -/
def bytesW : List Nat := List.replicate 32 0 ++ (List.replicate 65 0 ++ [1, 0, 0, 0])

/-- A table holding a pending incumbent (id 1) and a non-pending
replacement (id 2) with a probe keyed by the incumbent, started at time 0. -/
def sC3 : NodeTableState :=
  ⟨[⟨1, 0, ⟨1, epW, 3, true⟩⟩, ⟨2, 1, ⟨2, epW, 3, false⟩⟩],
   List.replicate 256 [], [(1, ⟨2, 0⟩)], [], ⟨0, 0, 0⟩, 2⟩

/-- Recognize a `FindNode` send in the action trace. -/
def isFindNodeSend : Out → Bool
  | .sentFindNode _ _ => true
  | _ => false

/-- Check that every `FindNode` send in the trace is preceded by the
registration of the queried id in `findNodeTimeout`. -/
def regSeenOK : List NodeID → List Out → Bool
  | _, [] => true
  | seen, Out.registeredFindNode i _ :: rest => regSeenOK (i :: seen) rest
  | seen, Out.sentFindNode i _ :: rest => decide (i ∈ seen) && regSeenOK seen rest
  | seen, _ :: rest => regSeenOK seen rest

/-- The per-candidate trace of the `doDiscover` send loop. -/
def discoverTrace (now target : Nat) (sel : List ANode) : List Out :=
  sel.foldr (fun an acc =>
    Out.registeredFindNode an.entry.id now :: Out.sentFindNode an.entry.id target :: acc) []

/-- Well-formedness of the `m_allNodes` owner map: keys and tags are unique,
every owned entry carries its key as id and its constructor-computed
distance to the local node, and every identifier is a 256-bit value. -/
def WFNodes (p : Params) (s : NodeTableState) : Prop :=
  (s.allNodes.map ANode.id).Nodup ∧ (s.allNodes.map ANode.tag).Nodup ∧
  ∀ an ∈ s.allNodes, an.entry.id = an.id ∧
    an.entry.distance = distance p.localId an.id ∧ an.id < 2 ^ 256

/-- Well-formedness of the bucket array: 256 buckets, each of at most `K`
references without duplicates, and every live reference in bucket `i` points
at a non-pending entry at distance `i + 1`. -/
def WFBuckets (s : NodeTableState) : Prop :=
  s.buckets.length = 256 ∧
  ∀ i, i < 256 →
    (bget s.buckets i).length ≤ s_bucketSize ∧ (bget s.buckets i).Nodup ∧
    ∀ t ∈ bget s.buckets i, ∀ an ∈ s.allNodes, an.tag = t →
      an.entry.pending = false ∧ an.entry.distance = i + 1

/-- Well-formedness of the evictions map: neither an incumbent key nor a
recorded replacement is the local node. -/
def WFEvictions (p : Params) (s : NodeTableState) : Prop :=
  ∀ e ∈ s.evictions, e.1 ≠ p.localId ∧ e.2.newNodeID ≠ p.localId

/-- The reachable-state invariant of the table. -/
def Inv (p : Params) (s : NodeTableState) : Prop :=
  p.localId < 2 ^ 256 ∧ WFNodes p s ∧ WFBuckets s ∧ WFEvictions p s

/-- The live entries referenced from bucket `i` (dereferencing the weak
references, as `snapshot` does). -/
def liveBucketEntries (s : NodeTableState) (i : Nat) : List ANode :=
  (bget s.buckets i).filterMap (fun t => lookupTag s t)

/-- A one-node table satisfying the invariant: node 3 known non-pending,
nothing bucketed yet. -/
def sInv : NodeTableState :=
  ⟨[⟨3, 0, ⟨3, epW, distance 5 3, false⟩⟩], List.replicate 256 [], [], [], ⟨0, 0, 0⟩, 1⟩

/-- The entry on which `noteActiveNode` performs its `bucket_UNSAFE`
access (`m_buckets[distance - 1]`), when the guards of lines 303-308 let the
call through; `none` means the function returns before touching a bucket. -/
def noteActiveNodeAccess (p : Params) (pubk : NodeID) (addr : Nat)
    (s : NodeTableState) : Option NodeEntry :=
  if pubk = p.localId ∨ p.allowed addr = false then none
  else
    match lookupId s pubk with
    | none => none
    | some an => if an.entry.pending then none else some an.entry

/-- A table with one expired probe whose incumbent (id 1) is no longer in
`AllNodes`. -/
def cxC4 : NodeTableState := ⟨[], [], [(1, ⟨2, 0⟩)], [], ⟨0, 0, 0⟩, 0⟩

/-- A table with an expired probe whose incumbent (id 1, pending) and
replacement (id 2) are both still in `AllNodes`. -/
def sC4w : NodeTableState :=
  ⟨[⟨1, 0, ⟨1, epW, 3, true⟩⟩, ⟨2, 1, ⟨2, epW, 3, false⟩⟩],
   List.replicate 256 [], [(1, ⟨2, 0⟩)], [], ⟨0, 0, 0⟩, 2⟩

theorem log2floorAux_eq_log2 : ∀ fuel n, n ≤ fuel → log2floorAux fuel n = Nat.log2 n := by
  intro fuel
  induction fuel with
  | zero =>
    intro n h
    interval_cases n
    simp [log2floorAux, Nat.log2]
  | succ fuel ih =>
    intro n h
    by_cases h2 : n < 2
    · rw [log2floorAux, if_pos h2, Nat.log2]
      rw [if_neg (by omega)]
    · rw [log2floorAux, if_neg h2, Nat.log2, if_pos (by omega)]
      rw [ih (n / 2) (by omega)]

theorem log2floor_eq_log2 (n : Nat) : log2floor n = Nat.log2 n :=
  log2floorAux_eq_log2 n n (Nat.le_refl n)

/-- The distance of an identifier to itself is zero. -/
theorem distance_self (a : NodeID) : distance a a = 0 := by
  simp [distance]

/-- Distinct identifiers are at distance at least one. -/
theorem distance_pos {a b : NodeID} (h : a ≠ b) : 1 ≤ distance a b := by
  simp [distance, h]

/-- Identifiers below `2 ^ 256` are at distance at most 256. -/
theorem distance_le {a b : NodeID} (ha : a < 2 ^ 256) (hb : b < 2 ^ 256) :
    distance a b ≤ 256 := by
  unfold distance
  split
  · exact Nat.zero_le _
  · rename_i hne
    have hxne : a ^^^ b ≠ 0 := by
      intro h0
      exact hne (Nat.xor_eq_zero.mp h0)
    have hxlt : a ^^^ b < 2 ^ 256 := Nat.xor_lt_two_pow ha hb
    have := (Nat.log2_lt hxne).mpr hxlt
    rw [log2floor_eq_log2]
    omega

/-- `distance a b = 0` exactly when the identifiers coincide. -/
theorem distance_eq_zero_iff {a b : NodeID} : distance a b = 0 ↔ a = b := by
  unfold distance
  split <;> simp_all

theorem bset_length : ∀ bs i v, (bset bs i v).length = bs.length := by
  intro bs
  induction bs with
  | nil => intro i v; rfl
  | cons b bs ih =>
    intro i v
    cases i with
    | zero => rfl
    | succ i => simp [bset, ih]

theorem bget_bset_eq : ∀ bs i v, i < bs.length → bget (bset bs i v) i = v := by
  intro bs
  induction bs with
  | nil => intro i v h; simp at h
  | cons b bs ih =>
    intro i v h
    cases i with
    | zero => rfl
    | succ i =>
      simp only [bset, bget]
      exact ih i v (by simpa using h)

theorem bget_bset_ne : ∀ bs i j v, i ≠ j → bget (bset bs i v) j = bget bs j := by
  intro bs
  induction bs with
  | nil => intro i j v _; cases j <;> rfl
  | cons b bs ih =>
    intro i j v hne
    cases i with
    | zero =>
      cases j with
      | zero => exact absurd rfl hne
      | succ j => rfl
    | succ i =>
      cases j with
      | zero => rfl
      | succ j => simpa [bset, bget] using ih i j v (by omega)

/-! ## Supporting lemmas about the map and bucket helpers -/

theorem mapInsert_find?_self {l : List ANode} {an : ANode}
    (h : l.find? (fun b => b.id = an.id) = none) :
    (mapInsert l an).find? (fun b => b.id = an.id) = some an := by
  induction l with
  | nil => simp [mapInsert]
  | cons b r ih =>
    by_cases hb : b.id = an.id
    · simp [List.find?_cons, hb] at h
    · rw [List.find?_cons] at h
      simp only [hb, decide_eq_true_eq, decide_eq_false_iff_not, not_false_eq_true] at h
      have h2 : r.find? (fun b2 => decide (b2.id = an.id)) = none := by
        revert h
        simp [hb]
      simp [mapInsert, hb, List.find?_cons, ih h2]

theorem noteActiveNode_findNodeTimeout (p : Params) (now pubk addr port : Nat)
    (s : NodeTableState) :
    (noteActiveNode p now pubk addr port s).1.findNodeTimeout = s.findNodeTimeout := by
  simp only [noteActiveNode, evictOp]
  split
  · rfl
  · split
    · rfl
    · split
      · rfl
      · split
        · rfl
        · split
          · rfl
          · split
            · rfl
            · split
              · rfl
              · split <;> rfl

theorem addNode_findNodeTimeout (p : Params) (now : Nat) (nid : NodeID) (ep : Endpoint)
    (rel : NodeRelation) (s : NodeTableState) :
    (addNode p now nid ep rel s).1.findNodeTimeout = s.findNodeTimeout := by
  cases rel
  · simp only [addNode]
    split
    · rfl
    · split <;> rfl
  · simp only [addNode]
    rw [noteActiveNode_findNodeTimeout]

theorem addNode_fold_findNodeTimeout (p : Params) (now : Nat)
    (ns : List (NodeID × Endpoint)) :
    ∀ (st : NodeTableState × List Out),
      (ns.foldl (fun acc n =>
        let r := addNode p now n.1 n.2 .Unknown acc.1
        (r.1, acc.2 ++ r.2)) st).1.findNodeTimeout = st.1.findNodeTimeout := by
  induction ns with
  | nil => intro st; rfl
  | cons n rest ih =>
    intro st
    simp only [List.foldl_cons]
    rw [ih]
    exact addNode_findNodeTimeout p now n.1 n.2 .Unknown st.1

theorem neighboursHandler_findNodeTimeout (p : Params) (now src : Nat)
    (ns : List (NodeID × Endpoint)) (s : NodeTableState) :
    (neighboursHandler p now src ns s).1.findNodeTimeout =
      s.findNodeTimeout.filter
        (fun t => decide (¬ (t.1 = src ∧ ¬ now - t.2 < c_reqTimeout))) := by
  simp only [neighboursHandler]
  split
  · rfl
  · rw [addNode_fold_findNodeTimeout]

/-! ## Shared concrete fixtures for witnesses and counterexamples -/

/-! ## Claim C1 -/

/-- Claim C1 as stated is false: `addNode` with relation `unknown` performs
no self check, so at this concrete input (the local id 5 with a valid
endpoint, empty table) it inserts the local id into `AllNodes` and sends a
`Ping`. -/
theorem C1_counterexample :
    (lookupId (addNode pW 0 pW.localId epW .Unknown emptyState).1 pW.localId).isSome = true ∧
    Out.sentPing pW.localId epW ∈ (addNode pW 0 pW.localId epW .Unknown emptyState).2 := by
  decide

/-- Claim C1 amended: `addNode(n, unknown)` with `n.id` equal to the local
id and a valid, not yet known endpoint inserts a pending entry for the local
id into `AllNodes` and sends a `Ping`, exactly like any other unknown node
(the unknown path of lines 95-107 has no self check); the self check exists
only in `noteActiveNode` (line 303), which ignores the local id, so the
local id still never enters any bucket. -/
theorem C1_amended (p : Params) (s : NodeTableState) (now : Nat) (ep : Endpoint)
    (hep : ep.isSpecified = true) (hid : p.localId ≠ 0)
    (habs : lookupId s p.localId = none) :
    (∃ an, lookupId (addNode p now p.localId ep .Unknown s).1 p.localId = some an ∧
       an.entry.pending = true) ∧
    Out.sentPing p.localId ep ∈ (addNode p now p.localId ep .Unknown s).2 ∧
    (∀ addr port, noteActiveNode p now p.localId addr port s = (s, [])) := by
  have hins := @mapInsert_find?_self s.allNodes
    ⟨p.localId, s.nextTag, ⟨p.localId, ep, distance p.localId p.localId, true⟩⟩ habs
  refine ⟨⟨⟨p.localId, s.nextTag, ⟨p.localId, ep, distance p.localId p.localId, true⟩⟩, ?_, rfl⟩, ?_, ?_⟩
  · simp only [addNode, hep, hid, or_self, Bool.true_eq_false, false_or, if_neg, habs,
      Option.isSome_none, Bool.false_eq_true, if_false]
    simpa [lookupId] using hins
  · simp [addNode, hep, hid, habs]
  · intro addr port
    simp [noteActiveNode]

/-- Witness for the amended claim C1 at the concrete fixture. -/
theorem C1_amended_witness :
    Out.sentPing pW.localId epW ∈ (addNode pW 0 pW.localId epW .Unknown emptyState).2 :=
  (C1_amended pW emptyState 0 epW (by decide) (by decide) rfl).2.1

/-! ## Claim C2 -/

/-- Claim C2 as stated is false: at time 100 a `Neighbours` packet from node
7 leaves the fresh (age 100 < 300) `findNodeTimeout` entry for 7 in place;
matching entries are not removed regardless of age. -/
theorem C2_counterexample :
    ((7 : NodeID), (0 : Nat)) ∈ (neighboursHandler pW 100 7 [] sFresh).1.findNodeTimeout ∧
    100 - 0 < c_reqTimeout := by
  decide

/-- Claim C2 amended: on reception of a `Neighbours` packet from sender
`s`, a `findNodeTimeout` entry survives exactly when it is not a stale
match, i.e. the handler removes exactly the entries whose queried id equals
`s` and whose age is at least `req_timeout`; fresh matching entries (which
mark the packet as expected) and entries for other ids are kept. -/
theorem C2_amended (p : Params) (now src : Nat) (ns : List (NodeID × Endpoint))
    (s : NodeTableState) (t : NodeID × Nat) :
    t ∈ (neighboursHandler p now src ns s).1.findNodeTimeout ↔
      t ∈ s.findNodeTimeout ∧ ¬ (t.1 = src ∧ c_reqTimeout ≤ now - t.2) := by
  rw [neighboursHandler_findNodeTimeout]
  simp only [List.mem_filter, decide_eq_true_eq]
  have hiff : ¬ (t.1 = src ∧ ¬ now - t.2 < c_reqTimeout) ↔
      ¬ (t.1 = src ∧ c_reqTimeout ≤ now - t.2) := by
    constructor
    · intro h hc
      exact h ⟨hc.1, Nat.not_lt.mpr hc.2⟩
    · intro h hc
      exact h ⟨hc.1, Nat.not_lt.mp hc.2⟩
  rw [hiff]

/-! ## Claim C5 -/

/-- Claim C5: a `Neighbours` packet from a sender with no `findNodeTimeout`
entry younger than `req_timeout` is discarded: no neighbour is added, the
`AllNodes` map is unchanged and nothing is sent or queued. -/
theorem C5_unsolicited_neighbours (p : Params) (now src : Nat)
    (ns : List (NodeID × Endpoint)) (s : NodeTableState)
    (h : ∀ t ∈ s.findNodeTimeout, t.1 = src → c_reqTimeout ≤ now - t.2) :
    (neighboursHandler p now src ns s).1.allNodes = s.allNodes ∧
    (neighboursHandler p now src ns s).2 = [] := by
  have hexp : s.findNodeTimeout.any
      (fun t => decide (t.1 = src ∧ now - t.2 < c_reqTimeout)) = false := by
    rw [List.any_eq_false]
    intro t ht
    simp only [decide_eq_true_eq, not_and]
    intro h1 h2
    exact absurd (h t ht h1) (Nat.not_le.mpr h2)
  unfold neighboursHandler
  rw [hexp]
  exact ⟨rfl, rfl⟩

/-- Witness for claim C5 at the concrete fixture: an unsolicited packet
listing a neighbour changes nothing. -/
theorem C5_witness :
    (neighboursHandler pW 400 7 [(9, epW)] sStale).1.allNodes = sStale.allNodes ∧
    (neighboursHandler pW 400 7 [(9, epW)] sStale).2 = [] :=
  C5_unsolicited_neighbours pW 400 7 [(9, epW)] sStale (by decide)

/-! ## Claim C9 -/

/-- Claim C9: a successfully decoded packet whose expiry timestamp lies in
the past is dropped before any handler runs: the state is unchanged and
nothing is sent, queued or scheduled (in particular `noteActiveNode` is not
reached for the sender). -/
theorem C9_expired_packet_dropped (p : Params) (now : Nat)
    (keccak : List Nat → List Nat) (recover : List Nat → List Nat → NodeID)
    (rlp : Nat → List Nat → Except Unit PacketBody)
    (fa fp : Nat) (bytes : List Nat) (s : NodeTableState) (pk : DecodedPacket)
    (hdec : interpretUDP keccak recover rlp bytes = .ok (some pk))
    (hexp : pk.isExpired now = true) :
    onPacketReceived p now keccak recover rlp fa fp bytes s = (s, []) := by
  unfold onPacketReceived
  rw [hdec]
  simp [hexp]

/-- Witness for claim C9: the witness datagram decodes to a `Ping` with
expiry 0, which at time 5 is expired and leaves the table untouched. -/
theorem C9_witness :
    onPacketReceived pW 5 kW rW rlpW 1 40000 bytesW emptyState = (emptyState, []) :=
  C9_expired_packet_dropped pW 5 kW rW rlpW 1 40000 bytesW emptyState
    ⟨1, 7, List.replicate 32 0, PacketBody.ping 4 ⟨9, 1, 1⟩ ⟨8, 2, 2⟩ 0⟩ rfl rfl

/-! ## Claim C8 -/

/-- Claim C8: `interpretUDP` returns no packet exactly when the datagram is
shorter than 32+65+1+3 bytes, or the leading 32-byte hash differs from the
Keccak-256 of the remainder, or signature recovery yields the zero key, or
the type byte is none of 1, 2, 3, 4; and every such failure leaves the
table state unchanged with no output. -/
theorem C8_decode_failure_conditions (keccak : List Nat → List Nat)
    (recover : List Nat → List Nat → NodeID)
    (rlp : Nat → List Nat → Except Unit PacketBody) (bytes : List Nat) :
    (interpretUDP keccak recover rlp bytes = .ok none ↔
      bytes.length < 32 + 65 + 1 + 3 ∨
      bytes.take 32 ≠ keccak (bytes.drop 32) ∨
      recover ((bytes.drop 32).take 65) (keccak ((bytes.drop 32).drop 65)) = 0 ∨
      ¬ ((bytes.drop 32).drop 65).headD 0 ∈ [1, 2, 3, 4]) ∧
    (∀ (p : Params) (now fa fp : Nat) (s : NodeTableState),
      interpretUDP keccak recover rlp bytes = .ok none →
      onPacketReceived p now keccak recover rlp fa fp bytes s = (s, [])) := by
  constructor
  · simp only [interpretUDP]
    split
    · rename_i h1
      exact iff_of_true rfl (Or.inl h1)
    · rename_i h1
      split
      · rename_i h2
        exact iff_of_true rfl (Or.inr (Or.inl h2))
      · rename_i h2
        split
        · rename_i h3
          exact iff_of_true rfl (Or.inr (Or.inr (Or.inl h3)))
        · rename_i h3
          split
          · rename_i h4
            have hfalse : ¬ (bytes.length < 32 + 65 + 1 + 3 ∨
                bytes.take 32 ≠ keccak (bytes.drop 32) ∨
                recover ((bytes.drop 32).take 65) (keccak ((bytes.drop 32).drop 65)) = 0 ∨
                ¬ ((bytes.drop 32).drop 65).headD 0 ∈ [1, 2, 3, 4]) := by
              rintro (h | h | h | h)
              · exact h1 h
              · exact h2 h
              · exact h3 h
              · exact h (by simpa using h4)
            split
            · exact iff_of_false (by simp) hfalse
            · exact iff_of_false (by simp) hfalse
          · rename_i h4
            exact iff_of_true rfl (Or.inr (Or.inr (Or.inr (by simpa using h4))))
  · intro p now fa fp s h
    unfold onPacketReceived
    rw [h]

/-- Witness for claim C8: the empty datagram is too small, decodes to no
packet, and is discarded without state change. -/
theorem C8_witness :
    onPacketReceived pW 0 kW rW rlpW 0 0 [] emptyState = (emptyState, []) :=
  (C8_decode_failure_conditions kW rW rlpW []).2 pW 0 0 0 emptyState rfl

/-! ## Lookup lemmas for the eviction machinery -/

theorem find?_id_cons (b : ANode) (r : List ANode) (i : NodeID) :
    (b :: r).find? (fun an => an.id = i) =
      if b.id = i then some b else r.find? (fun an => an.id = i) := by
  by_cases h : b.id = i <;> simp [List.find?_cons, h]

theorem find?_ev_cons (b : NodeID × EvictionTimeout) (r : List (NodeID × EvictionTimeout))
    (k : NodeID) :
    (b :: r).find? (fun e => e.1 = k) =
      if b.1 = k then some b else r.find? (fun e => e.1 = k) := by
  by_cases h : b.1 = k <;> simp [List.find?_cons, h]

theorem find?_eq_none_of_not_mem_keys {l : List (NodeID × EvictionTimeout)} {k : NodeID}
    (h : k ∉ l.map Prod.fst) : l.find? (fun e => e.1 = k) = none := by
  induction l with
  | nil => rfl
  | cons b r ih =>
    simp only [List.map_cons, List.mem_cons] at h
    push_neg at h
    rw [find?_ev_cons, if_neg (fun hb => h.1 hb.symm)]
    exact ih h.2

theorem eraseEvKey_find?_none {l : List (NodeID × EvictionTimeout)} {k : NodeID}
    (hnd : (l.map Prod.fst).Nodup) :
    (eraseEvKey l k).find? (fun e => e.1 = k) = none := by
  induction l with
  | nil => rfl
  | cons b r ih =>
    simp only [List.map_cons, List.nodup_cons] at hnd
    by_cases hb : b.1 = k
    · rw [eraseEvKey, if_pos hb]
      exact find?_eq_none_of_not_mem_keys (hb ▸ hnd.1)
    · rw [eraseEvKey, if_neg hb, find?_ev_cons, if_neg hb]
      exact ih hnd.2

theorem find?_id_eq_none_of_not_mem {l : List ANode} {i : NodeID}
    (h : i ∉ l.map ANode.id) : l.find? (fun an => an.id = i) = none := by
  induction l with
  | nil => rfl
  | cons b r ih =>
    simp only [List.map_cons, List.mem_cons] at h
    push_neg at h
    rw [find?_id_cons, if_neg (fun hb => h.1 hb.symm)]
    exact ih h.2

theorem mapEraseId_find?_none {l : List ANode} {i : NodeID}
    (hnd : (l.map ANode.id).Nodup) :
    (mapEraseId l i).find? (fun an => an.id = i) = none := by
  induction l with
  | nil => rfl
  | cons b r ih =>
    simp only [List.map_cons, List.nodup_cons] at hnd
    by_cases hb : b.id = i
    · rw [mapEraseId, if_pos hb]
      exact find?_id_eq_none_of_not_mem (hb ▸ hnd.1)
    · rw [mapEraseId, if_neg hb, find?_id_cons, if_neg hb]
      exact ih hnd.2

theorem mapEraseId_find?_other {l : List ANode} {i j : NodeID} (hne : j ≠ i) :
    (mapEraseId l i).find? (fun an => an.id = j) = l.find? (fun an => an.id = j) := by
  induction l with
  | nil => rfl
  | cons b r ih =>
    by_cases hb : b.id = i
    · rw [mapEraseId, if_pos hb, find?_id_cons, if_neg (fun hj => hne (hj.symm.trans hb))]
    · rw [mapEraseId, if_neg hb, find?_id_cons, find?_id_cons]
      by_cases hbj : b.id = j
      · rw [if_pos hbj, if_pos hbj]
      · rw [if_neg hbj, if_neg hbj, ih]

theorem updateTag_find?_id (l : List ANode) (t : Tag) (f : NodeEntry → NodeEntry)
    (i : NodeID) :
    (updateTag l t f).find? (fun an => an.id = i) =
      (l.find? (fun an => an.id = i)).map
        (fun an => if an.tag = t then { an with entry := f an.entry } else an) := by
  induction l with
  | nil => rfl
  | cons b r ih =>
    by_cases hb : b.id = i
    · by_cases hbt : b.tag = t <;>
        simp [updateTag, find?_id_cons, hb, hbt]
    · by_cases hbt : b.tag = t <;>
        simpa [updateTag, find?_id_cons, hb, hbt] using ih

/-! ## Claim C3 -/

/-- Claim C3: when a `Pong` arrives from node `src` for which an eviction
probe younger than `req_timeout` exists (keyed by `src` as the incumbent),
the replacement is dropped from `AllNodes` (with a dropped event when a
handler is set), the incumbent entry loses its pending flag, and the probe
is removed from the evictions map. -/
theorem C3_pong_resolves_fresh_probe (p : Params) (s : NodeTableState)
    (now src t0 : Nat) (rep : NodeID) (dest : Endpoint) (anR anI : ANode)
    (hkeys : (s.evictions.map Prod.fst).Nodup)
    (hids : (s.allNodes.map ANode.id).Nodup)
    (hfind : s.evictions.find? (fun e => e.1 = src) = some (src, ⟨rep, t0⟩))
    (hfresh : t0 + c_reqTimeout ≥ now)
    (hne : rep ≠ src)
    (hanR : lookupId s rep = some anR) (hanRid : anR.entry.id = rep)
    (hanI : lookupId s src = some anI) :
    lookupId (pongHandler p now src dest s).1 rep = none ∧
    (∃ an2, lookupId (pongHandler p now src dest s).1 src = some an2 ∧
       an2.entry.pending = false) ∧
    (pongHandler p now src dest s).1.evictions.find? (fun e => e.1 = src) = none ∧
    (p.hasHandler = true → Out.evDropped rep ∈ (pongHandler p now src dest s).2) := by
  have hanR2 : lookupId { s with evictions := eraseEvKey s.evictions src } rep = some anR :=
    hanR
  have hanI2 : lookupId
      { s with evictions := eraseEvKey s.evictions src,
               buckets := bset s.buckets (anR.entry.distance - 1)
                 ((bget s.buckets (anR.entry.distance - 1)).filter (fun t => t ≠ anR.tag)),
               allNodes := mapEraseId s.allNodes anR.entry.id } src = some anI := by
    show (mapEraseId s.allNodes anR.entry.id).find? (fun an => an.id = src) = some anI
    rw [hanRid, mapEraseId_find?_other (Ne.symm hne)]
    exact hanI
  simp only [pongHandler, hfind]
  rw [if_pos hfresh]
  simp only [dropNode, hanR2, hanI2]
  refine ⟨?_, ?_, ?_, ?_⟩
  · show (updateTag (mapEraseId s.allNodes anR.entry.id) anI.tag
      (fun e => { e with pending := false })).find? (fun an => an.id = rep) = none
    rw [updateTag_find?_id, hanRid, mapEraseId_find?_none hids]
    rfl
  · refine ⟨if anI.tag = anI.tag then { anI with entry := { anI.entry with pending := false } }
      else anI, ?_, ?_⟩
    · have hanIfind : s.allNodes.find? (fun an => an.id = src) = some anI := hanI
      show (updateTag (mapEraseId s.allNodes anR.entry.id) anI.tag
        (fun e => { e with pending := false })).find? (fun an => an.id = src) = _
      rw [updateTag_find?_id, hanRid, mapEraseId_find?_other (Ne.symm hne), hanIfind]
      simp
    · rw [if_pos rfl]
  · exact eraseEvKey_find?_none hkeys
  · intro hh
    simp [appendEvent, hh, hanRid]

/-- Witness for claim C3 at the concrete fixture: after the fresh `Pong`
from the probed incumbent, the replacement (id 2) is gone from `AllNodes`. -/
theorem C3_witness : lookupId (pongHandler pW 100 1 epW sC3).1 2 = none :=
  (C3_pong_resolves_fresh_probe pW sC3 100 1 0 2 epW
    ⟨2, 1, ⟨2, epW, 3, false⟩⟩ ⟨1, 0, ⟨1, epW, 3, true⟩⟩
    (by decide) (by decide) rfl (by decide) (by decide) rfl rfl rfl).1

/-! ## Claim C7 -/

theorem selectUntried_length_le (l : List ANode) (tried : List Tag) (k : Nat) :
    (selectUntried l tried k).length ≤ k := by
  induction l generalizing k with
  | nil => simp [selectUntried]
  | cons a rest ih =>
    by_cases hk : k = 0
    · simp [selectUntried, hk]
    · by_cases ht : a.tag ∈ tried
      · simpa [selectUntried, hk, ht] using ih k
      · have := ih (k - 1)
        simp only [selectUntried, hk, if_neg, ht, if_false, List.length_cons]
        omega

theorem selectUntried_mem {l : List ANode} {tried : List Tag} {k : Nat} {a : ANode}
    (h : a ∈ selectUntried l tried k) : a ∈ l ∧ a.tag ∉ tried := by
  induction l generalizing k with
  | nil => simp [selectUntried] at h
  | cons b rest ih =>
    by_cases hk : k = 0
    · simp [selectUntried, hk] at h
    · by_cases ht : b.tag ∈ tried
      · simp only [selectUntried, hk, if_neg, ht, if_true] at h
        have := ih h
        exact ⟨List.mem_cons_of_mem _ this.1, this.2⟩
      · simp only [selectUntried, hk, if_neg, ht, if_false, List.mem_cons] at h
        rcases h with h | h
        · exact ⟨h ▸ List.mem_cons_self b rest, h ▸ ht⟩
        · have := ih h
          exact ⟨List.mem_cons_of_mem _ this.1, this.2⟩

theorem discoverTrace_sends (now target : Nat) (sel : List ANode) (o : Out) :
    ∀ tl, o ∈ discoverTrace now target sel ++ tl →
      (∀ i tgt, o = Out.sentFindNode i tgt →
        tgt = target ∧ ∃ an ∈ sel, an.entry.id = i) ∨ o ∈ tl := by
  induction sel with
  | nil => intro tl h; exact Or.inr (by simpa [discoverTrace] using h)
  | cons a rest ih =>
    intro tl h
    simp only [discoverTrace, List.foldr_cons, List.cons_append, List.mem_cons] at h
    rcases h with h | h | h
    · refine Or.inl ?_
      intro i tgt he
      rw [h] at he
      cases he
    · refine Or.inl ?_
      intro i tgt he
      rw [h] at he
      cases he
      exact ⟨rfl, a, List.mem_cons_self a rest, rfl⟩
    · rcases ih tl h with h2 | h2
      · refine Or.inl ?_
        intro i tgt he
        rcases h2 i tgt he with ⟨h3, an, hmem, h4⟩
        exact ⟨h3, an, List.mem_cons_of_mem _ hmem, h4⟩
      · exact Or.inr h2

theorem discoverTrace_send_count (now target : Nat) (sel : List ANode) (tl : List Out)
    (htl : tl.filter isFindNodeSend = []) :
    ((discoverTrace now target sel ++ tl).filter isFindNodeSend).length = sel.length := by
  induction sel with
  | nil => simp [discoverTrace, htl]
  | cons a rest ih =>
    simpa [discoverTrace, isFindNodeSend, List.filter_cons] using ih

theorem discoverTrace_regSeenOK (now target : Nat) (sel : List ANode) (o : Out)
    (ho : isFindNodeSend o = false) :
    ∀ seen, regSeenOK seen (discoverTrace now target sel ++ [o]) = true := by
  induction sel with
  | nil =>
    intro seen
    cases o <;> simp_all [discoverTrace, regSeenOK, isFindNodeSend]
  | cons a rest ih =>
    intro seen
    simp only [discoverTrace, List.foldr_cons, List.cons_append, regSeenOK]
    rw [Bool.and_eq_true]
    exact ⟨by simp, ih (a.entry.id :: seen)⟩

/-- Claim C7: with the socket open, a `doDiscover` invocation at a round
below `S = 8` sends at most `alpha = 3` `FindNode` packets, each addressed
to a nearest entry not already tried, appends exactly the queried ids (with
the current time) to `findNodeTimeout`, registers each id before its send in
the action trace, and extends the tried set by exactly the queried entries;
at round 8, or when no untried nearest candidate exists, it sends nothing
and schedules the next random discovery. -/
theorem C7_doDiscover (p : Params) (s : NodeTableState) (now target round : Nat)
    (tried : List Tag) (hopen : p.socketOpen = true) :
    (round < s_maxSteps →
      ((doDiscover p now target round tried s).2.1.filter isFindNodeSend).length ≤ s_alpha ∧
      (∀ o ∈ (doDiscover p now target round tried s).2.1, ∀ i tgt,
        o = Out.sentFindNode i tgt → tgt = target ∧
          ∃ an ∈ selectUntried (nearestNodeEntries p s target) tried s_alpha,
            an ∈ nearestNodeEntries p s target ∧ an.tag ∉ tried ∧ an.entry.id = i) ∧
      (doDiscover p now target round tried s).1.findNodeTimeout =
        s.findNodeTimeout ++ (selectUntried (nearestNodeEntries p s target) tried
          s_alpha).map (fun an => (an.entry.id, now)) ∧
      regSeenOK [] (doDiscover p now target round tried s).2.1 = true ∧
      (doDiscover p now target round tried s).2.2 =
        tried ++ (selectUntried (nearestNodeEntries p s target) tried s_alpha).map
          (fun an => an.tag)) ∧
    ((round = s_maxSteps ∨ selectUntried (nearestNodeEntries p s target) tried s_alpha = []) →
      (doDiscover p now target round tried s).2.1.filter isFindNodeSend = [] ∧
      Out.scheduledRandomDiscovery ∈ (doDiscover p now target round tried s).2.1) := by
  constructor
  · intro hround
    have hne : round ≠ s_maxSteps := Nat.ne_of_lt hround
    simp only [doDiscover, hopen, Bool.true_eq_false, if_false, hne, if_neg,
      not_false_eq_true]
    set sel := selectUntried (nearestNodeEntries p s target) tried s_alpha with hsel
    by_cases hempty : sel.isEmpty
    · have hnil : sel = [] := List.isEmpty_iff.mp hempty
      refine ⟨?_, ?_, ?_, ?_, ?_⟩ <;>
        simp [hempty, hnil, discoverTrace, regSeenOK, isFindNodeSend]
    · have hcount := discoverTrace_send_count now target sel
        [Out.scheduledDiscoverRound (round + 1)] (by simp [isFindNodeSend])
      refine ⟨?_, ?_, ?_, ?_, ?_⟩
      · simp only [hempty, if_false, Bool.false_eq_true]
        calc ((discoverTrace now target sel ++
            [Out.scheduledDiscoverRound (round + 1)]).filter isFindNodeSend).length
            = sel.length := hcount
          _ ≤ s_alpha := selectUntried_length_le _ _ _
      · intro o ho i tgt he
        simp only [hempty, if_false, Bool.false_eq_true] at ho
        rcases discoverTrace_sends now target sel o _ ho with h2 | h2
        · rcases h2 i tgt he with ⟨h3, an, hmem, h4⟩
          have hm := selectUntried_mem (hsel ▸ hmem)
          exact ⟨h3, an, hmem, hm.1, hm.2, h4⟩
        · rw [he] at h2
          simp at h2
      · simp [hempty]
      · simp only [hempty, if_false, Bool.false_eq_true]
        exact discoverTrace_regSeenOK now target sel _ (by simp [isFindNodeSend]) []
      · simp [hempty]
  · intro hcase
    rcases hcase with hr | hsel0
    · simp [doDiscover, hopen, hr, isFindNodeSend]
    · by_cases hr : round = s_maxSteps
      · simp [doDiscover, hopen, hr, isFindNodeSend]
      · simp [doDiscover, hopen, hr, hsel0, discoverTrace, isFindNodeSend, regSeenOK]

set_option maxRecDepth 8192 in
/-- Witness for claim C7 at the concrete fixture: on the empty table no
candidate exists, so discovery at round 0 just schedules the next random
discovery. -/
theorem C7_witness :
    Out.scheduledRandomDiscovery ∈ (doDiscover pW 0 11 0 [] emptyState).2.1 :=
  ((C7_doDiscover pW emptyState 0 11 0 [] rfl).2 (Or.inr (by decide))).2

/-! ## Well-formedness invariant of the node table -/

theorem eq_of_map_nodup {α β : Type} {f : α → β} {l : List α}
    (h : (l.map f).Nodup) {a b : α} (ha : a ∈ l) (hb : b ∈ l) (hf : f a = f b) :
    a = b := by
  induction l with
  | nil => cases ha
  | cons c r ih =>
    simp only [List.map_cons, List.nodup_cons] at h
    rcases List.mem_cons.mp ha with rfl | ha2 <;>
      rcases List.mem_cons.mp hb with rfl | hb2
    · rfl
    · exact absurd (hf ▸ List.mem_map_of_mem f hb2) h.1
    · exact absurd (hf ▸ List.mem_map_of_mem f ha2) h.1
    · exact ih h.2 ha2 hb2

theorem lookupId_some {s : NodeTableState} {i : NodeID} {an : ANode}
    (h : lookupId s i = some an) : an ∈ s.allNodes ∧ an.id = i :=
  ⟨List.mem_of_find?_eq_some h, by simpa using List.find?_some h⟩

theorem lookupTag_some {s : NodeTableState} {t : Tag} {an : ANode}
    (h : lookupTag s t = some an) : an ∈ s.allNodes ∧ an.tag = t :=
  ⟨List.mem_of_find?_eq_some h, by simpa using List.find?_some h⟩

theorem updateTag_map_id (l : List ANode) (t : Tag) (f : NodeEntry → NodeEntry) :
    (updateTag l t f).map ANode.id = l.map ANode.id := by
  simp only [updateTag, List.map_map]
  congr 1
  funext an
  by_cases h : an.tag = t <;> simp [h, Function.comp]

theorem updateTag_map_tag (l : List ANode) (t : Tag) (f : NodeEntry → NodeEntry) :
    (updateTag l t f).map ANode.tag = l.map ANode.tag := by
  simp only [updateTag, List.map_map]
  congr 1
  funext an
  by_cases h : an.tag = t <;> simp [h, Function.comp]

theorem mem_updateTag {l : List ANode} {t : Tag} {f : NodeEntry → NodeEntry}
    {an2 : ANode} (h : an2 ∈ updateTag l t f) :
    ∃ an ∈ l, an2 = if an.tag = t then { an with entry := f an.entry } else an := by
  rcases List.mem_map.mp h with ⟨an, hmem, heq⟩
  exact ⟨an, hmem, heq.symm⟩

theorem updateTag_mem_of_mem {l : List ANode} {t : Tag} {f : NodeEntry → NodeEntry}
    {an : ANode} (h : an ∈ l) :
    (if an.tag = t then { an with entry := f an.entry } else an) ∈ updateTag l t f :=
  List.mem_map_of_mem _ h

/-- A shape-preserving entry rewrite (same id, distance and pending flag)
keeps the invariant; only the endpoint may change. -/
theorem Inv_updateTag (p : Params) (s : NodeTableState) (t : Tag)
    (f : NodeEntry → NodeEntry)
    (hf : ∀ e, (f e).id = e.id ∧ (f e).distance = e.distance ∧ (f e).pending = e.pending)
    (h : Inv p s) : Inv p { s with allNodes := updateTag s.allNodes t f } := by
  obtain ⟨hloc, ⟨hids, htags, hrec⟩, ⟨hblen, hbuck⟩, hev⟩ := h
  refine ⟨hloc, ⟨?_, ?_, ?_⟩, ⟨hblen, ?_⟩, hev⟩
  · rw [show ({ s with allNodes := updateTag s.allNodes t f } :
      NodeTableState).allNodes = updateTag s.allNodes t f from rfl, updateTag_map_id]
    exact hids
  · rw [show ({ s with allNodes := updateTag s.allNodes t f } :
      NodeTableState).allNodes = updateTag s.allNodes t f from rfl, updateTag_map_tag]
    exact htags
  · intro an2 hmem
    rcases mem_updateTag hmem with ⟨an, hanmem, heq⟩
    rcases hrec an hanmem with ⟨h1, h2, h3⟩
    subst heq
    by_cases ht : an.tag = t
    · simp only [ht, if_pos rfl]
      exact ⟨(hf an.entry).1.trans h1, (hf an.entry).2.1.trans h2, h3⟩
    · simp only [ht, if_neg, if_false]
      exact ⟨h1, h2, h3⟩
  · intro i hi
    rcases hbuck i hi with ⟨hl, hn, hm⟩
    refine ⟨hl, hn, ?_⟩
    intro t2 ht2 an2 hmem htag
    rcases mem_updateTag hmem with ⟨an, hanmem, heq⟩
    have htg : an2.tag = an.tag := by
      subst heq
      split <;> rfl
    rcases hm t2 ht2 an hanmem (htg.symm.trans htag) with ⟨h1, h2⟩
    subst heq
    by_cases ht : an.tag = t
    · simp only [ht, if_pos rfl]
      exact ⟨(hf an.entry).2.2.trans h1, (hf an.entry).2.1.trans h2⟩
    · simp only [ht, if_neg, if_false]
      exact ⟨h1, h2⟩

/-- Replacing bucket `bi` by a list that satisfies the bucket conditions
keeps the invariant. -/
theorem Inv_setBucket (p : Params) (s : NodeTableState) (bi : Nat) (v : List Tag)
    (h : Inv p s) (hlen : v.length ≤ s_bucketSize) (hnd : v.Nodup)
    (hmem : ∀ t ∈ v, ∀ an ∈ s.allNodes, an.tag = t →
      an.entry.pending = false ∧ an.entry.distance = bi + 1) :
    Inv p { s with buckets := bset s.buckets bi v } := by
  obtain ⟨hloc, hn, ⟨hblen, hbuck⟩, hev⟩ := h
  refine ⟨hloc, hn, ⟨by rw [show ({ s with buckets := bset s.buckets bi v } :
    NodeTableState).buckets = bset s.buckets bi v from rfl, bset_length]; exact hblen, ?_⟩, hev⟩
  intro i hi
  by_cases hibi : bi = i
  · subst hibi
    rw [show bget (bset s.buckets bi v) bi = v from bget_bset_eq _ _ _ (by omega)]
    exact ⟨hlen, hnd, hmem⟩
  · rw [show bget (bset s.buckets bi v) i = bget s.buckets i from bget_bset_ne _ _ _ _ hibi]
    exact hbuck i hi

/-- Recording an eviction probe for a non-local incumbent and a non-local
replacement keeps the invariant. -/
theorem Inv_evictOp (p : Params) (now : Nat) (leastSeen : NodeEntry) (newId : NodeID)
    (s : NodeTableState) (h : Inv p s) (hL : leastSeen.id ≠ p.localId)
    (hN : newId ≠ p.localId) : Inv p (evictOp p now leastSeen newId s).1 := by
  obtain ⟨hloc, hn, hb, hev⟩ := h
  simp only [evictOp]
  split
  · exact ⟨hloc, hn, hb, hev⟩
  · refine ⟨hloc, hn, hb, ?_⟩
    intro e he
    split at he
    · exact hev e he
    · rcases List.mem_append.mp he with he2 | he2
      · exact hev e he2
      · rcases List.mem_singleton.mp he2 with rfl
        exact ⟨hL, hN⟩

theorem mapEraseId_sublist : ∀ (l : List ANode) (i : NodeID), (mapEraseId l i).Sublist l := by
  intro l i
  induction l with
  | nil => simp [mapEraseId]
  | cons b r ih =>
    by_cases hb : b.id = i
    · rw [mapEraseId, if_pos hb]
      exact List.sublist_cons_of_sublist b (List.Sublist.refl r)
    · rw [mapEraseId, if_neg hb]
      exact List.Sublist.cons₂ b ih

/-- `dropNode` keeps the invariant: it only shrinks a bucket and the owner
map. -/
theorem Inv_dropNode (p : Params) (n : ANode) (s : NodeTableState) (h : Inv p s) :
    Inv p (dropNode p n s).1 := by
  obtain ⟨hloc, ⟨hids, htags, hrec⟩, ⟨hblen, hbuck⟩, hev⟩ := h
  have hsub := mapEraseId_sublist s.allNodes n.entry.id
  simp only [dropNode]
  refine ⟨hloc, ⟨?_, ?_, ?_⟩, ⟨?_, ?_⟩, ?_⟩
  · exact hids.sublist (hsub.map ANode.id)
  · exact htags.sublist (hsub.map ANode.tag)
  · intro an hmem
    exact hrec an (hsub.mem hmem)
  · rw [bset_length]
    exact hblen
  · intro i hi
    by_cases hibi : n.entry.distance - 1 = i
    · subst hibi
      rw [show bget (bset s.buckets (n.entry.distance - 1)
          ((bget s.buckets (n.entry.distance - 1)).filter (fun t => t ≠ n.tag)))
          (n.entry.distance - 1) = _ from bget_bset_eq _ _ _ (by omega)]
      rcases hbuck _ hi with ⟨hl, hn2, hm⟩
      refine ⟨le_trans (List.length_filter_le _ _) hl, hn2.filter _, ?_⟩
      intro t ht an hmem htag
      exact hm t (List.mem_of_mem_filter ht) an (hsub.mem hmem) htag
    · rw [bget_bset_ne _ _ _ _ hibi]
      rcases hbuck i hi with ⟨hl, hn2, hm⟩
      refine ⟨hl, hn2, ?_⟩
      intro t ht an hmem htag
      exact hm t ht an (hsub.mem hmem) htag
  · exact hev

/-- `noteActiveNode` keeps the invariant in every branch: splice, append,
expired-front replacement added, or eviction probe. -/
theorem Inv_noteActiveNode (p : Params) (now pubk addr port : Nat) (s : NodeTableState)
    (h : Inv p s) : Inv p (noteActiveNode p now pubk addr port s).1 := by
  simp only [noteActiveNode]
  split
  · exact h
  · rename_i hguard
    split
    · exact h
    · rename_i an hlook
      split
      · exact h
      · rename_i hpend
        have hpubk : pubk ≠ p.localId := fun he => hguard (Or.inl he)
        obtain ⟨hanmem, hanid⟩ := lookupId_some hlook
        obtain ⟨hloc, ⟨hids, htags, hrec⟩, hb0, hev0⟩ := h
        obtain ⟨hid_eq, hdist_eq, hidlt⟩ := hrec an hanmem
        have hpendF : an.entry.pending = false := by
          revert hpend
          cases an.entry.pending <;> simp
        have hlocne : p.localId ≠ an.id := by
          rw [hanid]
          exact fun he => hpubk he.symm
        have hdpos : 1 ≤ an.entry.distance := by
          rw [hdist_eq]
          exact distance_pos hlocne
        have hdle : an.entry.distance ≤ 256 := by
          rw [hdist_eq]
          exact distance_le hloc hidlt
        have hbi : an.entry.distance - 1 < 256 := by omega
        have hInv1 : Inv p { s with allNodes := updateTag s.allNodes an.tag (endpointUpd addr port) } :=
          Inv_updateTag p s an.tag _ (fun e => ⟨rfl, rfl, rfl⟩)
            ⟨hloc, ⟨hids, htags, hrec⟩, hb0, hev0⟩
        have hupdmem : ({ an with entry := endpointUpd addr port an.entry } : ANode) ∈
            updateTag s.allNodes an.tag (endpointUpd addr port) := by
          have := @updateTag_mem_of_mem s.allNodes an.tag (endpointUpd addr port) an hanmem
          rwa [if_pos rfl] at this
        obtain ⟨hblen1, hbuck1⟩ := hInv1.2.2.1
        rcases hbuck1 (an.entry.distance - 1) hbi with ⟨hlen1, hnd1, hmem1⟩
        dsimp only at hlen1 hnd1 hmem1
        have haux : ∀ an2 ∈ updateTag s.allNodes an.tag (endpointUpd addr port),
            an2.tag = an.tag →
            an2.entry.pending = false ∧
            an2.entry.distance = an.entry.distance - 1 + 1 := by
          intro an2 hmem2 htag2
          have heq2 : an2 = { an with entry := endpointUpd addr port an.entry } :=
            eq_of_map_nodup hInv1.2.1.2.1 hmem2 hupdmem (by simpa using htag2)
          subst heq2
          have hdd : ({ an with entry := endpointUpd addr port an.entry } : ANode).entry.distance
              = an.entry.distance := rfl
          rw [hdd]
          exact ⟨hpendF, by omega⟩
        split
        · rename_i hin
          apply Inv_setBucket p _ _ _ hInv1
          · rw [List.length_append, List.length_erase_of_mem hin, List.length_singleton]
            have hpos : 0 < (bget s.buckets (an.entry.distance - 1)).length :=
              List.length_pos_of_mem hin
            omega
          · refine List.Nodup.append (hnd1.erase _) (List.nodup_singleton _) ?_
            intro a ha hb
            rcases List.mem_singleton.mp hb with rfl
            exact ((List.Nodup.mem_erase_iff hnd1).mp ha).1 rfl
          · intro t ht an2 hmem2 htag2
            rcases List.mem_append.mp ht with ht2 | ht2
            · exact hmem1 t (List.erase_subset _ _ ht2) an2 hmem2 htag2
            · rcases List.mem_singleton.mp ht2 with rfl
              exact haux an2 hmem2 htag2
        · rename_i hnotin
          split
          · rename_i hfit
            apply Inv_setBucket p _ _ _ hInv1
            · rw [List.length_append, List.length_singleton]
              simp only [s_bucketSize] at hfit ⊢
              omega
            · refine List.Nodup.append hnd1 (List.nodup_singleton _) ?_
              intro a ha hb
              rcases List.mem_singleton.mp hb with rfl
              exact hnotin ha
            · intro t ht an2 hmem2 htag2
              rcases List.mem_append.mp ht with ht2 | ht2
              · exact hmem1 t ht2 an2 hmem2 htag2
              · rcases List.mem_singleton.mp ht2 with rfl
                exact haux an2 hmem2 htag2
          · rename_i hnotfit
            split
            · exact hInv1
            · rename_i front rest hnodes
              rw [hnodes] at hlen1 hnd1 hnotin
              split
              · rename_i hdead
                apply Inv_setBucket p _ _ _ hInv1
                · rw [List.length_append, List.length_singleton]
                  rw [List.length_cons] at hlen1
                  omega
                · refine List.Nodup.append hnd1.of_cons (List.nodup_singleton _) ?_
                  intro a ha hb
                  rcases List.mem_singleton.mp hb with rfl
                  exact hnotin (List.mem_cons_of_mem front ha)
                · intro t ht an2 hmem2 htag2
                  rcases List.mem_append.mp ht with ht2 | ht2
                  · exact hmem1 t (hnodes ▸ List.mem_cons_of_mem front ht2) an2 hmem2 htag2
                  · rcases List.mem_singleton.mp ht2 with rfl
                    exact haux an2 hmem2 htag2
              · rename_i fan hfan
                obtain ⟨hfanmem, hfantag⟩ := lookupTag_some hfan
                have hfrontmem : front ∈ bget s.buckets (an.entry.distance - 1) := by
                  rw [hnodes]
                  exact List.mem_cons_self front rest
                rcases hmem1 front hfrontmem fan hfanmem hfantag with ⟨hfp, hfd⟩
                obtain ⟨hfid, hfdist, hflt⟩ := hInv1.2.1.2.2 fan hfanmem
                have hfanid : fan.entry.id ≠ p.localId := by
                  rw [hfid]
                  intro he
                  have h0 : distance p.localId fan.id = 0 := by
                    rw [he]
                    exact distance_self _
                  rw [← hfdist, hfd] at h0
                  omega
                have hnewid : an.entry.id ≠ p.localId := by
                  rw [hid_eq, hanid]
                  exact hpubk
                exact Inv_evictOp p now fan.entry an.entry.id _ hInv1 hfanid hnewid

/-! ## Claim C6 -/

/-- Claim C6: under the table invariant, every bucket holds at most `K = 16`
live entries with pairwise distinct ids, every live entry is non-pending and
sits in the bucket of its distance with
`distance(local, entry.id) == entry.distance`; and both `noteActiveNode` and
`dropNode` preserve the invariant. -/
theorem C6_bucket_invariant (p : Params) (s : NodeTableState)
    (now pubk addr port : Nat) (n : ANode) (hInv : Inv p s) :
    (∀ i, i < 256 →
      (liveBucketEntries s i).length ≤ s_bucketSize ∧
      ((liveBucketEntries s i).map (fun an => an.entry.id)).Nodup ∧
      ∀ an ∈ liveBucketEntries s i,
        an.entry.pending = false ∧ an.entry.distance = i + 1 ∧
        distance p.localId an.entry.id = an.entry.distance) ∧
    Inv p (noteActiveNode p now pubk addr port s).1 ∧
    Inv p (dropNode p n s).1 := by
  obtain ⟨hloc, ⟨hids, htags, hrec⟩, ⟨hblen, hbuck⟩, hev⟩ := hInv
  refine ⟨?_, Inv_noteActiveNode p now pubk addr port s
      ⟨hloc, ⟨hids, htags, hrec⟩, ⟨hblen, hbuck⟩, hev⟩,
    Inv_dropNode p n s ⟨hloc, ⟨hids, htags, hrec⟩, ⟨hblen, hbuck⟩, hev⟩⟩
  intro i hi
  rcases hbuck i hi with ⟨hlen, hnd, hmem⟩
  refine ⟨?_, ?_, ?_⟩
  · exact le_trans (List.length_filterMap_le _ _) hlen
  · rw [liveBucketEntries, List.map_filterMap]
    refine List.Nodup.filterMap ?_ hnd
    intro t t2 b h1 h2
    rcases ht1 : lookupTag s t with _ | an1
    · rw [ht1] at h1
      cases h1
    · rcases ht2 : lookupTag s t2 with _ | an2
      · rw [ht2] at h2
        cases h2
      · rw [ht1] at h1
        rw [ht2] at h2
        simp only [Option.map_some', Option.mem_def, Option.some.injEq] at h1 h2
        obtain ⟨hm1, htg1⟩ := lookupTag_some ht1
        obtain ⟨hm2, htg2⟩ := lookupTag_some ht2
        have hideq : an1.id = an2.id := by
          rw [← (hrec an1 hm1).1, ← (hrec an2 hm2).1, h1, h2]
        have : an1 = an2 := eq_of_map_nodup hids hm1 hm2 hideq
        rw [← htg1, ← htg2, this]
  · intro an hmem2
    rcases List.mem_filterMap.mp hmem2 with ⟨t, htmem, hsome⟩
    obtain ⟨hm, htg⟩ := lookupTag_some hsome
    rcases hmem t htmem an hm htg with ⟨h1, h2⟩
    rcases hrec an hm with ⟨h3, h4, _⟩
    exact ⟨h1, h2, by rw [h3, ← h4]⟩

set_option maxRecDepth 16384 in
/-- Witness for claim C6 at the concrete fixture: the invariant holds after
noting node 3 active on the one-node table. -/
theorem C6_witness : Inv pW (noteActiveNode pW 0 3 1 30303 sInv).1 :=
  (C6_bucket_invariant pW sInv 0 3 1 30303 ⟨3, 0, ⟨3, epW, distance 5 3, false⟩⟩
    (by unfold Inv WFNodes WFBuckets WFEvictions; decide)).2.1

/-! ## Claim C10 -/

/-- When no bucket access happens, `noteActiveNode` leaves the state
untouched, tying `noteActiveNodeAccess` to the operation it abstracts. -/
theorem noteActiveNode_of_access_none (p : Params) (now pubk addr port : Nat)
    (s : NodeTableState) (h : noteActiveNodeAccess p pubk addr s = none) :
    noteActiveNode p now pubk addr port s = (s, []) := by
  unfold noteActiveNodeAccess at h
  simp only [noteActiveNode]
  split
  · rfl
  · rename_i hguard
    rw [if_neg hguard] at h
    split
    · rfl
    · rename_i an hlook
      rw [hlook] at h
      split
      · rfl
      · rename_i hpend
        dsimp only at h
        rw [if_neg hpend] at h
        exact Option.noConfusion h

/-- Claim C10: under the table invariant, every `bucket_UNSAFE` access
index `entry.distance - 1` stays inside `[0, 256)`: for the entry
`noteActiveNode` reaches its access with, and for the entries `dropNode` is
invoked on by the eviction machinery (the probe incumbent looked up by the
sweep and the probe replacement looked up by the `Pong` handler); the self
guard is what makes this hold, because `addNode` can create an entry for the
local id whose constructor-computed distance is 0, but `noteActiveNode`
never reaches the bucket access for the local id. -/
theorem C10_bucket_index_in_bounds (p : Params) (s : NodeTableState)
    (pubk addr : Nat) (hInv : Inv p s) :
    (∀ e, noteActiveNodeAccess p pubk addr s = some e →
      0 ≤ (e.distance : Int) - 1 ∧ (e.distance : Int) - 1 < 256) ∧
    (∀ ev ∈ s.evictions,
      (∀ an, lookupId s ev.1 = some an →
        0 ≤ (an.entry.distance : Int) - 1 ∧ (an.entry.distance : Int) - 1 < 256) ∧
      (∀ an, lookupId s ev.2.newNodeID = some an →
        0 ≤ (an.entry.distance : Int) - 1 ∧ (an.entry.distance : Int) - 1 < 256)) ∧
    distance p.localId p.localId = 0 ∧
    noteActiveNodeAccess p p.localId addr s = none := by
  obtain ⟨hloc, ⟨hids, htags, hrec⟩, hb, hev⟩ := hInv
  have hbounds : ∀ an ∈ s.allNodes, an.id ≠ p.localId →
      0 ≤ (an.entry.distance : Int) - 1 ∧ (an.entry.distance : Int) - 1 < 256 := by
    intro an hm hne
    rcases hrec an hm with ⟨_, hdist, hlt⟩
    have h1 : 1 ≤ an.entry.distance := by
      rw [hdist]
      exact distance_pos (fun he => hne he.symm)
    have h2 : an.entry.distance ≤ 256 := by
      rw [hdist]
      exact distance_le hloc hlt
    omega
  refine ⟨?_, ?_, distance_self _, ?_⟩
  · intro e he
    unfold noteActiveNodeAccess at he
    split at he
    · cases he
    · rename_i hguard
      split at he
      · cases he
      · rename_i an hlook
        split at he
        · cases he
        · obtain ⟨hm, hid⟩ := lookupId_some hlook
          rw [Option.some.injEq] at he
          subst he
          exact hbounds an hm (by rw [hid]; exact fun h2 => hguard (Or.inl h2))
  · intro ev hevmem
    rcases hev ev hevmem with ⟨h1, h2⟩
    constructor
    · intro an hlook
      obtain ⟨hm, hid⟩ := lookupId_some hlook
      exact hbounds an hm (hid ▸ h1)
    · intro an hlook
      obtain ⟨hm, hid⟩ := lookupId_some hlook
      exact hbounds an hm (hid ▸ h2)
  · unfold noteActiveNodeAccess
    rw [if_pos (Or.inl rfl)]

set_option maxRecDepth 16384 in
/-- Witness for claim C10 at the concrete fixture: `noteActiveNode` on the
local id performs no bucket access. -/
theorem C10_witness : noteActiveNodeAccess pW pW.localId 1 sInv = none :=
  (C10_bucket_index_in_bounds pW sInv 9 1
    (by unfold Inv WFNodes WFBuckets WFEvictions; decide)).2.2.2

/-! ## Lemmas about the eviction sweep -/

theorem noteActiveNode_ids (p : Params) (now pk a b : Nat) (s : NodeTableState) :
    (noteActiveNode p now pk a b s).1.allNodes.map ANode.id =
      s.allNodes.map ANode.id := by
  simp only [noteActiveNode, evictOp]
  split
  · rfl
  · split
    · rfl
    · split
      · rfl
      · split
        · exact updateTag_map_id _ _ _
        · split
          · exact updateTag_map_id _ _ _
          · split
            · exact updateTag_map_id _ _ _
            · split
              · exact updateTag_map_id _ _ _
              · split
                · exact updateTag_map_id _ _ _
                · exact updateTag_map_id _ _ _

theorem noteActiveNode_evictions_sub (p : Params) (now pk a b : Nat)
    (s : NodeTableState) :
    ∀ e ∈ (noteActiveNode p now pk a b s).1.evictions,
      e ∈ s.evictions ∨ e.1 ∈ s.allNodes.map (fun an => an.entry.id) := by
  simp only [noteActiveNode, evictOp]
  split
  · exact fun e he => Or.inl he
  · split
    · exact fun e he => Or.inl he
    · split
      · exact fun e he => Or.inl he
      · split
        · exact fun e he => Or.inl he
        · split
          · exact fun e he => Or.inl he
          · split
            · exact fun e he => Or.inl he
            · split
              · exact fun e he => Or.inl he
              · rename_i an front rest hnodes fan hfan
                split
                · exact fun e he => Or.inl he
                · intro e he
                  split at he
                  · exact Or.inl he
                  · rcases List.mem_append.mp he with he2 | he2
                    · exact Or.inl he2
                    · rcases List.mem_singleton.mp he2 with rfl
                      obtain ⟨hm, _⟩ := lookupTag_some hfan
                      rcases mem_updateTag hm with ⟨an0, hm0, heq0⟩
                      refine Or.inr ?_
                      have : fan.entry.id = an0.entry.id := by
                        subst heq0
                        split <;> rfl
                      rw [this]
                      exact List.mem_map_of_mem _ hm0

theorem lookupId_none_of_not_mem_ids {s : NodeTableState} {i : NodeID}
    (h : i ∉ s.allNodes.map ANode.id) : lookupId s i = none := by
  rw [lookupId, List.find?_eq_none]
  intro an hm
  simp only [decide_eq_true_eq]
  intro he
  exact h (he ▸ List.mem_map_of_mem ANode.id hm)

theorem mapEraseId_not_mem_ids {l : List ANode} {i : NodeID}
    (h : (l.map ANode.id).Nodup) : i ∉ (mapEraseId l i).map ANode.id := by
  induction l with
  | nil => simp [mapEraseId]
  | cons b r ih =>
    simp only [List.map_cons, List.nodup_cons] at h
    by_cases hb : b.id = i
    · rw [mapEraseId, if_pos hb]
      rw [← hb]
      exact h.1
    · rw [mapEraseId, if_neg hb]
      simp only [List.map_cons, List.mem_cons]
      rintro (he | he)
      · exact hb he.symm
      · exact ih h.2 he

theorem dropNode_ids_sub {p : Params} {n : ANode} {s : NodeTableState} :
    ((dropNode p n s).1.allNodes.map ANode.id).Sublist (s.allNodes.map ANode.id) :=
  (mapEraseId_sublist _ _).map ANode.id

theorem dropNode_evictions (p : Params) (n : ANode) (s : NodeTableState) :
    (dropNode p n s).1.evictions = s.evictions := rfl

/-- Facts about the drop phase: ids only disappear, the eviction map is
untouched, outputs only grow, the invariant is preserved, and every dropped
id is gone afterwards, its dropped event in the trace. -/
theorem dropFold_facts (p : Params) (L : List ANode) :
    ∀ st : NodeTableState × List Out,
      ((dropFold p L st).1.allNodes.map ANode.id).Sublist
        (st.1.allNodes.map ANode.id) ∧
      (dropFold p L st).1.evictions = st.1.evictions ∧
      (∀ o ∈ st.2, o ∈ (dropFold p L st).2) ∧
      (Inv p st.1 → Inv p (dropFold p L st).1) ∧
      ((st.1.allNodes.map ANode.id).Nodup → ∀ n ∈ L,
        n.entry.id ∉ (dropFold p L st).1.allNodes.map ANode.id) ∧
      (p.hasHandler = true → ∀ n ∈ L, Out.evDropped n.entry.id ∈ (dropFold p L st).2) := by
  induction L with
  | nil =>
    intro st
    refine ⟨List.Sublist.refl _, rfl, fun o ho => ho, fun h => h, ?_, ?_⟩
    · intro _ n hn
      cases hn
    · intro _ n hn
      cases hn
  | cons m rest ih =>
    intro st
    have hstep : dropFold p (m :: rest) st =
        dropFold p rest ((dropNode p m st.1).1, st.2 ++ (dropNode p m st.1).2) := rfl
    rw [hstep]
    rcases ih ((dropNode p m st.1).1, st.2 ++ (dropNode p m st.1).2) with
      ⟨hsub, hevs, houts, hinv, hgone, hout2⟩
    refine ⟨hsub.trans (@dropNode_ids_sub p m st.1), hevs, ?_, ?_, ?_, ?_⟩
    · intro o ho
      exact houts o (List.mem_append_left _ ho)
    · intro h
      exact hinv (Inv_dropNode p m st.1 h)
    · intro hnd n hn
      rcases List.mem_cons.mp hn with rfl | hn2
      · intro hmem
        have : n.entry.id ∈ (dropNode p n st.1).1.allNodes.map ANode.id :=
          hsub.mem hmem
        exact mapEraseId_not_mem_ids hnd this
      · exact hgone (hnd.sublist (@dropNode_ids_sub p m st.1)) n hn2
    · intro hh n hn
      rcases List.mem_cons.mp hn with rfl | hn2
      · refine houts _ (List.mem_append_right _ ?_)
        simp [dropNode, appendEvent, hh]
      · exact hout2 hh n hn2

/-- Facts about the promotion phase: the id map is unchanged, outputs only
grow, the invariant is preserved, and no eviction key outside the live ids
is ever introduced. -/
theorem noteFold_facts (p : Params) (now : Nat) (L : List (NodeID × Endpoint)) :
    ∀ st : NodeTableState × List Out,
      (noteFold p now L st).1.allNodes.map ANode.id = st.1.allNodes.map ANode.id ∧
      (∀ o ∈ st.2, o ∈ (noteFold p now L st).2) ∧
      (Inv p st.1 → Inv p (noteFold p now L st).1) ∧
      (∀ k, Inv p st.1 → (∀ x ∈ st.1.evictions, x.1 ≠ k) →
        k ∉ st.1.allNodes.map ANode.id →
        ∀ x ∈ (noteFold p now L st).1.evictions, x.1 ≠ k) := by
  induction L with
  | nil =>
    intro st
    exact ⟨rfl, fun o ho => ho, fun h => h, fun k _ hx _ => hx⟩
  | cons m rest ih =>
    intro st
    have hstep : noteFold p now (m :: rest) st =
        noteFold p now rest ((noteActiveNode p now m.1 m.2.address m.2.udpPort st.1).1,
          st.2 ++ (noteActiveNode p now m.1 m.2.address m.2.udpPort st.1).2) := rfl
    rw [hstep]
    rcases ih ((noteActiveNode p now m.1 m.2.address m.2.udpPort st.1).1,
      st.2 ++ (noteActiveNode p now m.1 m.2.address m.2.udpPort st.1).2) with
      ⟨hids, houts, hinv, hkeys⟩
    refine ⟨hids.trans (noteActiveNode_ids p now m.1 m.2.address m.2.udpPort st.1), ?_, ?_, ?_⟩
    · intro o ho
      exact houts o (List.mem_append_left _ ho)
    · intro h
      exact hinv (Inv_noteActiveNode p now m.1 m.2.address m.2.udpPort st.1 h)
    · intro k hInv0 hx hk
      refine hkeys k (Inv_noteActiveNode p now m.1 m.2.address m.2.udpPort st.1 hInv0) ?_
        (by rw [noteActiveNode_ids]; exact hk)
      intro x hxmem
      rcases noteActiveNode_evictions_sub p now m.1 m.2.address m.2.udpPort st.1 x hxmem with
        hold | hnew
      · exact hx x hold
      · intro hke
        apply hk
        rw [← hke]
        obtain ⟨hloc, ⟨_, _, hrec⟩, _, _⟩ := hInv0
        rcases List.mem_map.mp hnew with ⟨an0, hm0, heq0⟩
        rw [← heq0, (hrec an0 hm0).1]
        exact List.mem_map_of_mem _ hm0

theorem sweepStep_acc_sub (now : Nat) (s : NodeTableState)
    (acc : List ANode × List (NodeID × Endpoint)) (e : NodeID × EvictionTimeout) :
    (∀ x ∈ acc.1, x ∈ (sweepStep now s acc e).1) ∧
    (∀ x ∈ acc.2, x ∈ (sweepStep now s acc e).2) := by
  unfold sweepStep
  split
  · split
    · refine ⟨fun x hx => List.mem_append_left _ hx, fun x hx => ?_⟩
      dsimp only
      split
      · exact List.mem_append_left _ hx
      · exact hx
    · exact ⟨fun x hx => hx, fun x hx => hx⟩
  · exact ⟨fun x hx => hx, fun x hx => hx⟩

theorem sweepFold_mono (now : Nat) (s : NodeTableState)
    (L : List (NodeID × EvictionTimeout)) :
    ∀ acc, (∀ x ∈ acc.1, x ∈ (L.foldl (sweepStep now s) acc).1) ∧
      (∀ x ∈ acc.2, x ∈ (L.foldl (sweepStep now s) acc).2) := by
  induction L with
  | nil => exact fun acc => ⟨fun x hx => hx, fun x hx => hx⟩
  | cons e rest ih =>
    intro acc
    rw [List.foldl_cons]
    rcases ih (sweepStep now s acc e) with ⟨h1, h2⟩
    rcases sweepStep_acc_sub now s acc e with ⟨g1, g2⟩
    exact ⟨fun x hx => h1 x (g1 x hx), fun x hx => h2 x (g2 x hx)⟩

theorem sweepFold_mem (now : Nat) (s : NodeTableState)
    (L : List (NodeID × EvictionTimeout)) :
    ∀ acc, ∀ e ∈ L, c_reqTimeout < now - e.2.evictedTimePoint →
      ∀ an, lookupId s e.1 = some an →
        an ∈ (L.foldl (sweepStep now s) acc).1 ∧
        (∀ an2, lookupId s e.2.newNodeID = some an2 →
          (an2.entry.id, an2.entry.endpoint) ∈ (L.foldl (sweepStep now s) acc).2) := by
  induction L with
  | nil =>
    intro acc e he
    cases he
  | cons e0 rest ih =>
    intro acc e he hexp an han
    rw [List.foldl_cons]
    rcases List.mem_cons.mp he with rfl | he2
    · rcases sweepFold_mono now s rest (sweepStep now s acc e) with ⟨h1, h2⟩
      have hstep1 : an ∈ (sweepStep now s acc e).1 := by
        unfold sweepStep
        rw [if_pos hexp, han]
        exact List.mem_append_right _ (List.mem_singleton_self _)
      constructor
      · exact h1 an hstep1
      · intro an2 han2
        refine h2 _ ?_
        unfold sweepStep
        rw [if_pos hexp, han]
        dsimp only
        rw [han2]
        exact List.mem_append_right _ (List.mem_singleton_self _)
    · exact ih (sweepStep now s acc e0) e he2 hexp an han

theorem sweepFold_sub (now : Nat) (s : NodeTableState)
    (L : List (NodeID × EvictionTimeout)) :
    ∀ acc, ∀ x ∈ (L.foldl (sweepStep now s) acc).1, x ∈ acc.1 ∨ x ∈ s.allNodes := by
  induction L with
  | nil => exact fun acc x hx => Or.inl hx
  | cons e rest ih =>
    intro acc x hx
    rw [List.foldl_cons] at hx
    rcases ih (sweepStep now s acc e) x hx with hx2 | hx2
    · simp only [sweepStep] at hx2
      split at hx2
      · split at hx2
        · rename_i an han
          rcases List.mem_append.mp hx2 with hx3 | hx3
          · exact Or.inl hx3
          · rcases List.mem_singleton.mp hx3 with rfl
            exact Or.inr (lookupId_some han).1
        · exact Or.inl hx2
      · exact Or.inl hx2
    · exact Or.inr hx2

theorem dedupAdjacent_sublist : ∀ l : List ANode, (dedupAdjacent l).Sublist l := by
  intro l
  induction l with
  | nil => simp [dedupAdjacent]
  | cons b r ih =>
    cases r with
    | nil => simp [dedupAdjacent]
    | cons c r2 =>
      by_cases h : b.tag = c.tag
      · rw [dedupAdjacent, if_pos h]
        exact List.sublist_cons_of_sublist b ih
      · rw [dedupAdjacent, if_neg h]
        exact List.Sublist.cons₂ b ih

theorem mem_dedupAdjacent_of_mem {l : List ANode}
    (huniq : ∀ x ∈ l, ∀ y ∈ l, x.tag = y.tag → x = y) {a : ANode} (ha : a ∈ l) :
    a ∈ dedupAdjacent l := by
  induction l with
  | nil => cases ha
  | cons b r ih =>
    cases r with
    | nil => simpa [dedupAdjacent] using ha
    | cons c r2 =>
      have huniq2 : ∀ x ∈ c :: r2, ∀ y ∈ c :: r2, x.tag = y.tag → x = y :=
        fun x hx y hy => huniq x (List.mem_cons_of_mem b hx) y (List.mem_cons_of_mem b hy)
      by_cases h : b.tag = c.tag
      · rw [dedupAdjacent, if_pos h]
        have hbc : b = c := huniq b (List.mem_cons_self _ _) c
          (List.mem_cons_of_mem b (List.mem_cons_self _ _)) h
        rcases List.mem_cons.mp ha with rfl | ha2
        · exact ih huniq2 (hbc ▸ List.mem_cons_self _ _)
        · exact ih huniq2 ha2
      · rw [dedupAdjacent, if_neg h]
        rcases List.mem_cons.mp ha with rfl | ha2
        · exact List.mem_cons_self _ _
        · exact List.mem_cons_of_mem b (ih huniq2 ha2)

theorem Inv_filter_evictions (p : Params) (s : NodeTableState)
    (f : NodeID × EvictionTimeout → Bool) (h : Inv p s) :
    Inv p { s with evictions := s.evictions.filter f } := by
  obtain ⟨hloc, hn, hb, hev⟩ := h
  exact ⟨hloc, hn, hb, fun e he => hev e (List.mem_of_mem_filter he)⟩

/-! ## Claim C4 -/

/-- Claim C4 (amended): each run of the eviction sweep drops every incumbent
that is still present in `AllNodes` and whose probe is older than
`req_timeout` (erasing it from `AllNodes`, emitting a dropped event, and
removing every probe keyed by it), collects that probe's replacement for
promotion through `noteActiveNode` when the replacement is still present,
reschedules the sweep while any probe remains, and preserves the table
invariant. Probes whose incumbent has already left `AllNodes` are skipped
and left in the map. -/
theorem C4_amended_eviction_sweep (p : Params) (s : NodeTableState) (now : Nat)
    (hInv : Inv p s) (hh : p.hasHandler = true) :
    (∀ ev ∈ s.evictions, c_reqTimeout < now - ev.2.evictedTimePoint →
      ∀ an, lookupId s ev.1 = some an →
        lookupId (doCheckEvictionsTick p now s).1 ev.1 = none ∧
        Out.evDropped ev.1 ∈ (doCheckEvictionsTick p now s).2 ∧
        (∀ x ∈ (doCheckEvictionsTick p now s).1.evictions, x.1 ≠ ev.1) ∧
        (∀ an2, lookupId s ev.2.newNodeID = some an2 →
          (an2.entry.id, an2.entry.endpoint) ∈ (sweepCollect now s.evictions s).2)) ∧
    ((doCheckEvictionsTick p now s).1.evictions ≠ [] →
      Out.scheduledEvictionCheck ∈ (doCheckEvictionsTick p now s).2) ∧
    Inv p (doCheckEvictionsTick p now s).1 := by
  obtain ⟨hloc, ⟨hids, htags, hrec⟩, hbk, hev⟩ := hInv
  have hInvS : Inv p s := ⟨hloc, ⟨hids, htags, hrec⟩, hbk, hev⟩
  simp only [doCheckEvictionsTick]
  set col := sweepCollect now s.evictions s with hcol
  set dropU := dedupAdjacent col.1 with hdropU
  set evKept := s.evictions.filter (fun e => dropU.all (fun n => n.entry.id ≠ e.1))
    with hevKept
  set s1 : NodeTableState := { s with evictions := evKept } with hs1
  set r1 := dropFold p dropU (s1, []) with hr1
  set r2 := noteFold p now col.2 r1 with hr2
  have hInv1 : Inv p s1 := by
    rw [hs1, hevKept]
    exact Inv_filter_evictions p s _ hInvS
  obtain ⟨dsub, devs, douts, dinv, dgone, dout2⟩ := dropFold_facts p dropU (s1, [])
  rw [← hr1] at dsub devs douts dinv dgone dout2
  obtain ⟨nids, nouts, ninv, nkeys⟩ := noteFold_facts p now col.2 r1
  rw [← hr2] at nids nouts ninv nkeys
  have hs1ids : s1.allNodes = s.allNodes := by rw [hs1]
  have huniq : ∀ x ∈ col.1, ∀ y ∈ col.1, x.tag = y.tag → x = y := by
    intro x hx y hy htxy
    rw [hcol] at hx hy
    have hx2 : x ∈ s.allNodes := by
      rcases sweepFold_sub now s s.evictions ([], []) x hx with h0 | h0
      · cases h0
      · exact h0
    have hy2 : y ∈ s.allNodes := by
      rcases sweepFold_sub now s s.evictions ([], []) y hy with h0 | h0
      · cases h0
      · exact h0
    exact eq_of_map_nodup htags hx2 hy2 htxy
  refine ⟨?_, ?_, ninv (dinv hInv1)⟩
  · intro ev hevmem hexp an han
    obtain ⟨hanmem, hanid⟩ := lookupId_some han
    have hanEid : an.entry.id = ev.1 := (hrec an hanmem).1.trans hanid
    have hanInCol : an ∈ col.1 := by
      rw [hcol]
      exact (sweepFold_mem now s s.evictions ([], []) ev hevmem hexp an han).1
    have hanInDropU : an ∈ dropU := by
      rw [hdropU]
      exact mem_dedupAdjacent_of_mem huniq hanInCol
    have hnd1 : (s1.allNodes.map ANode.id).Nodup := by
      rw [hs1ids]
      exact hids
    have hgone1 : an.entry.id ∉ r1.1.allNodes.map ANode.id :=
      dgone hnd1 an hanInDropU
    have hev1r1 : ev.1 ∉ r1.1.allNodes.map ANode.id := hanEid ▸ hgone1
    have hev1r2 : ev.1 ∉ r2.1.allNodes.map ANode.id := by
      rw [nids]
      exact hev1r1
    refine ⟨lookupId_none_of_not_mem_ids hev1r2, ?_, ?_, ?_⟩
    · have h1 : Out.evDropped an.entry.id ∈ r1.2 := dout2 hh an hanInDropU
      have h2 : Out.evDropped an.entry.id ∈ r2.2 := nouts _ h1
      rw [← hanEid]
      exact List.mem_append_left _ h2
    · intro x hx
      refine nkeys ev.1 (dinv hInv1) ?_ hev1r1 x hx
      intro y hy
      rw [devs] at hy
      have hy2 : y ∈ evKept := by
        have : s1.evictions = evKept := by rw [hs1]
        rw [← this]
        exact hy
      rw [hevKept] at hy2
      have hall := List.of_mem_filter hy2
      rw [List.all_eq_true] at hall
      have := hall an hanInDropU
      simp only [decide_eq_true_eq] at this
      intro hyk
      exact this (by rw [hanEid, ← hyk])
    · intro an2 han2
      exact (sweepFold_mem now s s.evictions ([], []) ev hevmem hexp an han).2 an2 han2
  · intro hne
    have hfalse : r2.1.evictions.isEmpty = false := by
      cases hemp : r2.1.evictions.isEmpty
      · rfl
      · exact absurd (List.isEmpty_iff.mp hemp) hne
    rw [hfalse]
    simp

/-- Claim C4 as stated is false: at this concrete input, a probe older than
`req_timeout` whose incumbent already left `AllNodes` is not removed from
the evictions map by the sweep, and no dropped event is emitted for it. -/
theorem C4_counterexample :
    ((1 : NodeID), (⟨2, 0⟩ : EvictionTimeout)) ∈
      (doCheckEvictionsTick pW 1000 cxC4).1.evictions ∧
    c_reqTimeout < 1000 - (0 : Nat) ∧
    Out.evDropped 1 ∉ (doCheckEvictionsTick pW 1000 cxC4).2 := by
  decide

set_option maxRecDepth 16384 in
/-- Witness for the amended claim C4 at the concrete fixture: after the
sweep, the dead incumbent is gone from `AllNodes`. -/
theorem C4_witness : lookupId (doCheckEvictionsTick pW 1000 sC4w).1 1 = none :=
  ((C4_amended_eviction_sweep pW sC4w 1000
    (by unfold Inv WFNodes WFBuckets WFEvictions; decide) rfl).1
    (1, ⟨2, 0⟩) (by decide) (by decide) ⟨1, 0, ⟨1, epW, 3, true⟩⟩ rfl).1

end Aleth
